import Mathlib

/-!
# Verification of the rerejs regular-expression engine

A shallow embedding of the rerejs source (parser, compiler, backtracking VM,
char-set library, canonicalization, match records) together with theorems
checking the natural-language specification against that embedding.

JavaScript strings are modelled as lists of UTF-16 code units (natural
numbers; a well-formed unit is below 0x10000).  JavaScript numbers appearing
as positions or capture offsets are modelled as integers, since the code uses
the value -1 as a sentinel.
-/

namespace Rerejs

/-- A JavaScript string: a list of UTF-16 code units. -/
abbrev JSString := List Nat

/-- Code units of a well-formed JavaScript string are below 0x10000. -/
def ValidUnits (s : JSString) : Prop := ∀ u ∈ s, u < 0x10000

instance (s : JSString) : Decidable (ValidUnits s) := by
  unfold ValidUnits
  infer_instance

/-- JavaScript s.charCodeAt(i), where NaN (out of range) is reported as none. -/
def charCodeAt (s : JSString) (i : Int) : Option Nat :=
  if h : 0 ≤ i ∧ i.toNat < s.length then some (s.get ⟨i.toNat, h.2⟩) else none

/-- JavaScript s.codePointAt(i), where out of range is reported as none.
It combines a lead surrogate at i with a trail surrogate at i + 1. -/
def codePointAt (s : JSString) (i : Int) : Option Nat :=
  match charCodeAt s i with
  | none => none
  | some c =>
    if 0xd800 ≤ c ∧ c ≤ 0xdbff then
      match charCodeAt s (i + 1) with
      | some d =>
        if 0xdc00 ≤ d ∧ d ≤ 0xdfff then
          some (0x10000 + (c - 0xd800) * 0x400 + (d - 0xdc00))
        else some c
      | none => some c
    else some c

/-- JavaScript s.slice(i, j) for 0 ≤ i, j (clamped to the length; empty
when i ≥ j), as used on capture offsets. -/
def jsSlice (s : JSString) (i j : Int) : JSString :=
  (s.take (min j.toNat s.length)).drop (min i.toNat s.length)

/-! ## canonicalize.ts

The Unicode case data (data/legacy.ts, data/unicode.ts) and the host
String.prototype.toUpperCase are external read-only datasets; the embedding
takes them as a parameter. -/

/-- External Unicode data consumed by canonicalize / uncanonicalize:
the host toUpperCase / toLowerCase on a one-code-unit string, and the fold
maps from the generated data files data/unicode.ts and data/legacy.ts. -/
structure UnicodeData where
  toUpper : Nat → List Nat
  toLower : Nat → List Nat
  foldMap : Nat → Option Nat
  invFoldMap : Nat → Option (List Nat)
  legacyInvFoldMap : Nat → Option (List Nat)

/-- Map lookup on a numeric key that may be negative (a JavaScript Map holds
only code-point keys, so a negative key always misses). -/
def natLookup (f : Nat → Option α) (c : Int) : Option α :=
  if 0 ≤ c then f c.toNat else none

/-- canonicalize (src/src/canonicalize.ts).  The argument is an Int because
the VM feeds it the -1 end-of-string marker.  String.fromCharCode truncates
its argument modulo 2^16, hence the c % 0x10000.  The charCodeAt(0) of
the impossible empty uppercase string is modelled as 0. -/
def canonicalize (D : UnicodeData) (c : Int) (unicode : Bool) : Int :=
  if unicode then
    ((natLookup D.foldMap c).map (Nat.cast)).getD c
  else
    let u := D.toUpper (c % 0x10000).toNat
    if 2 ≤ u.length then c
    else
      let d := (u.headD 0 : Int)
      if 0x80 ≤ c ∧ d < 0x80 then c
      else d

/-- uncanonicalize (src/src/canonicalize.ts). -/
def uncanonicalize (D : UnicodeData) (c : Int) (unicode : Bool) : List Nat :=
  if unicode then
    (natLookup D.invFoldMap c).getD []
  else
    match natLookup D.legacyInvFoldMap c with
    | some d => d
    | none => [(D.toLower (c % 0x10000).toNat).headD 0]

/-- The legacy ignore-case rule exactly as the specification words it:
uppercase the single UTF-16 code unit; if the uppercase form has length ≠ 1,
return the code point unchanged; if it is ≥ 0x80 but the uppercase maps below
0x80, return it unchanged; otherwise return the uppercase code unit. -/
def specLegacyCanonicalize (D : UnicodeData) (c : Nat) : Int :=
  let u := D.toUpper c
  if u.length ≠ 1 then c
  else
    let d := (u.headD 0 : Int)
    if 0x80 ≤ (c : Int) ∧ d < 0x80 then c
    else d

/-- Unicode case data relevant to the code points K (U+004B), k (U+006B) and
KELVIN SIGN (U+212A).  Modelled from the spec: the generated data files
data/legacy.ts and data/unicode.ts are not part of the sources; the
specification states that simple case folding sends both U+004B and U+212A
to U+006B, and toUpperCase maps k to K and fixes K and KELVIN SIGN. -/
def kelvinData : UnicodeData where
  toUpper c := if c = 0x6b then [0x4b] else [c]
  toLower c := if c = 0x4b then [0x6b] else [c]
  foldMap c := if c = 0x4b ∨ c = 0x212a then some 0x6b else none
  invFoldMap c := if c = 0x6b then some [0x4b, 0x6b, 0x212a] else none
  legacyInvFoldMap c :=
    if c = 0x4b then some [0x4b, 0x6b] else
    if c = 0x6b then some [0x4b, 0x6b] else none

/-! ## char-class/char-set.ts -/

/-- The maximum valid code point of Unicode (exclusive bound). -/
def MAX_CODE_POINT : Nat := 0x110000

/-- CharSet: internal data is a flat sorted array; element 2k is the begin of
the k-th range and element 2k+1 its (exclusive) end. -/
structure CharSet where
  data : List Nat
deriving DecidableEq, Repr

namespace CharSet

/-- d[i] for a flat range array, defaulting to 0 out of range. -/
def at' (d : List Nat) (i : Nat) : Nat := d.getD i 0

/-- The loop of searchBegin: while max - min > 1, bisect on
c ≤ data[mid * 2 + 1].  The source starts from min = -1 and
max = data.length / 2 and returns max.  The fuel only matches the model's
recursion to the while loop; the gap shrinks every iteration, so the fuel
searchBegin supplies can never run out. -/
def sbLoop (d : List Nat) (c : Nat) : Nat → Int → Int → Int
  | 0, _, hi => hi
  | f + 1, lo, hi =>
    if 1 < hi - lo then
      let mid := lo + (hi - lo) / 2
      if c ≤ at' d (mid * 2 + 1).toNat then sbLoop d c f lo mid
      else sbLoop d c f mid hi
    else hi

/-- searchBegin: find the least i such that c ≤ data[i * 2 + 1]. -/
def searchBegin (s : CharSet) (c : Nat) : Int :=
  sbLoop s.data c (s.data.length + 1) (-1) (s.data.length / 2)

/-- The loop of searchEnd: while max - min > 1, bisect on
data[mid * 2] ≤ c.  The source starts from min = -1 and
max = data.length / 2 and returns min. -/
def seLoop (d : List Nat) (c : Nat) : Nat → Int → Int → Int
  | 0, lo, _ => lo
  | f + 1, lo, hi =>
    if 1 < hi - lo then
      let mid := lo + (hi - lo) / 2
      if at' d (mid * 2).toNat ≤ c then seLoop d c f mid hi
      else seLoop d c f lo mid
    else lo

/-- searchEnd: find the greatest j such that data[j * 2] ≤ c (-1 if none). -/
def searchEnd (s : CharSet) (c : Nat) : Int :=
  seLoop s.data c (s.data.length + 1) (-1) (s.data.length / 2)

/-- CharSet.add: splice out the ranges the inserted range [begin, end)
overlaps, widen it by what was removed, and re-insert it.  The two splice
calls of the source are rendered with take / drop (with the clamping
JavaScript's splice performs; a negative delete count removes nothing). -/
def add (s : CharSet) (b e : Nat) : CharSet :=
  let i := (searchBegin s b).toNat
  let j := searchEnd s e
  let delCount := ((j - i + 1) * 2).toNat
  let removed := (s.data.drop (i * 2)).take delCount
  let b' := if removed = [] then b else min b (removed.headD 0)
  let e' := if removed = [] then e else max e (removed.getLastD 0)
  ⟨s.data.take (i * 2) ++ [b', e'] ++ s.data.drop (i * 2 + delCount)⟩

/-- CharSet.addCharSet: add every range of the other set in order. -/
def addCharSet (s : CharSet) (t : CharSet) : CharSet :=
  go s t.data
where
  /-- Iterate the flat range array two entries at a time. -/
  go : CharSet → List Nat → CharSet
  | s, b :: e :: rest => go (add s b e) rest
  | s, _ => s

/-- CharSet.invert (mutating in the source; functional here). -/
def invert (s : CharSet) : CharSet :=
  if s.data = [] then ⟨[0, MAX_CODE_POINT]⟩
  else if s.data.headD 0 = 0 ∧ s.data.getLastD 0 = MAX_CODE_POINT then
    ⟨(s.data.drop 1).dropLast⟩
  else ⟨0 :: (s.data ++ [MAX_CODE_POINT])⟩

/-- CharSet.has: the comparison against data[i * 2 + 1] reads 0 when that
index is out of range, which like JavaScript's undefined makes the
comparison fail. -/
def has (s : CharSet) (c : Nat) : Bool :=
  let i := searchEnd s c
  if i < 0 ∨ (s.data.length : Int) ≤ i * 2 then false
  else
    let b := at' s.data (i * 2).toNat
    let e := at' s.data (i * 2).toNat.succ
    b ≤ c ∧ c < e

/-- has on an Int code point as JavaScript computes it: every comparison
against a negative number fails, so a negative code point is in no set. -/
def hasI (s : CharSet) (c : Int) : Bool :=
  if c < 0 then false else has s c.toNat

end CharSet

/-- The ASCII word-character set of char-class/ascii.ts, built by the same
add calls. -/
def word : CharSet :=
  ((((⟨[]⟩ : CharSet).add 0x30 (0x39 + 1)).add 0x41 (0x5a + 1)).add 0x61 (0x7a + 1)).add
    0x5f (0x5f + 1)

/-! ## engine/op-code.ts -/

/-- OpCode: op-codes of the compiled program. -/
inductive OpCode where
  | any
  | back
  | cap_begin (index : Nat)
  | cap_end (index : Nat)
  | cap_reset («from» : Nat) («to» : Nat)
  | char (value : Int)
  | «class» (set : CharSet)
  | class_not (set : CharSet)
  | dec
  | empty_check
  | fail
  | fork_cont (next : Int)
  | fork_next (next : Int)
  | jump (cont : Int)
  | line_begin
  | line_end
  | loop (cont : Int)
  | «match»
  | pop
  | push (value : Int)
  | push_pos
  | push_proc
  | ref (index : Nat)
  | ref_back (index : Nat)
  | restore_pos
  | rewind_proc
  | word_boundary
  | word_boundary_not
deriving DecidableEq, Repr

/-! ## engine/program.ts -/

/-- The six regular-expression flags. -/
structure FlagSet where
  global : Bool
  ignoreCase : Bool
  multiline : Bool
  unicode : Bool
  dotAll : Bool
  sticky : Bool
deriving DecidableEq, Repr

/-- The fields of the parsed pattern the VM reads (the full AST child is
irrelevant to execution). -/
structure Program where
  flagSet : FlagSet
  captureParens : Nat
  names : List (JSString × Nat)
  codes : List OpCode
deriving DecidableEq, Repr

/-- Match (engine/match.ts): an input, a flat begin/end capture array and
the capture name map. -/
structure Match where
  input : JSString
  caps : List Int
  names : List (JSString × Nat)
deriving DecidableEq, Repr

/-- index: get the s[i] code point (-1 off the ends). -/
def index (s : JSString) (i : Int) (unicode : Bool) : Int :=
  if unicode then ((codePointAt s i).map (Nat.cast)).getD (-1)
  else ((charCodeAt s i).map (Nat.cast)).getD (-1)

/-- prevIndex: get the s[i - 1] code point (-1 off the ends), looking one
more unit back when i - 1 holds a trail surrogate. -/
def prevIndex (s : JSString) (i : Int) (unicode : Bool) : Int :=
  let c := index s (i - 1) unicode
  if !unicode then c
  else if 0xdc00 ≤ c ∧ c ≤ 0xdfff then
    let d := index s (i - 2) unicode
    if 0x10000 ≤ d ∧ d ≤ 0x10ffff then d else c
  else c

/-- size: string length taken by a code point. -/
def size (c : Int) : Int := if 0x10000 ≤ c then 2 else 1

/-- isLineTerminator. -/
def isLineTerminator (c : Int) : Bool :=
  c = 0x0a ∨ c = 0x0d ∨ c = 0x2028 ∨ c = 0x2029

/-- calculateMaxStackSize: one linear walk over the codes; push-like
op-codes count +1, pop-like op-codes count -1, and the running maximum is
returned. -/
def calculateMaxStackSize (codes : List OpCode) : Int :=
  (codes.foldl
    (fun (p : Int × Int) code =>
      let s :=
        match code with
        | .push _ | .push_pos | .push_proc => p.1 + 1
        | .empty_check | .pop | .restore_pos | .rewind_proc => p.1 - 1
        | _ => p.1
      (s, max s p.2))
    (0, 0)).2

/-- Read xs[i] on an Int index, 0 out of range (the VM never reads its aux
stack out of range on a compiled program). -/
def intAt (xs : List Int) (i : Int) : Int :=
  if 0 ≤ i then xs.getD i.toNat 0 else 0

/-- Read caps[i] (-1 out of range; in range for every compiled program). -/
def capGet (xs : List Int) (i : Nat) : Int := xs.getD i (-1)

/-- JavaScript array assignment xs[i] = v on an Int index: in range it
stores, at the length it appends, anywhere else it leaves the elements
unchanged. -/
def setAt (xs : List Int) (i : Int) (v : Int) : List Int :=
  if i < 0 then xs
  else if i.toNat < xs.length then xs.set i.toNat v
  else if i.toNat = xs.length then xs ++ [v]
  else xs

/-- setAt on a Nat index. -/
def setAtN (xs : List Int) (i : Nat) (v : Int) : List Int := setAt xs i v

/-- The caps-clearing loop of the cap_reset op-code. -/
def capReset (caps : List Int) (f t : Nat) : List Int :=
  (List.range' f (t - f)).foldl
    (fun cs k => setAtN (setAtN cs (k * 2 + 1) (-1)) (k * 2) (-1)) caps

/-- Proc: execution state of one VM thread. -/
structure Proc where
  pos : Int
  pc : Int
  stack : List Int
  stackSize : Int
  caps : List Int
deriving DecidableEq, Repr

/-- The external inputs of the VM: the Unicode case data and the
data-derived Unicode word-character set. -/
structure ExecEnv where
  D : UnicodeData
  unicodeWord : CharSet

/-- The code at program counter pc (none when pc is out of range, where the
engine would crash on reading .op of undefined). -/
def getCode (P : Program) (pc : Int) : Option OpCode :=
  if 0 ≤ pc then P.codes.get? pc.toNat else none

/-- The comparison loop of the ref op-code: match the captured substring s
against the input forward from pos.  Returns the final position and the
backtrack flag.  The fuel the caller supplies (one more than the substring
length) cannot run out, since i advances every iteration. -/
def refLoop (D : UnicodeData) (u ic : Bool) (input s : JSString) :
    Nat → Int → Int → Int × Bool
  | 0, pos, _ => (pos, false)
  | f + 1, pos, i =>
    if i < (s.length : Int) then
      let c := index input pos u
      let d := index s i u
      let cc := if ic then canonicalize D c u else c
      let dc := if ic then canonicalize D d u else d
      if cc ≠ dc then (pos, true)
      else refLoop D u ic input s f (pos + size c) (i + size d)
    else (pos, false)

/-- The comparison loop of the ref_back op-code: match the captured
substring s against the input backward from pos. -/
def refBackLoop (D : UnicodeData) (u ic : Bool) (input s : JSString) :
    Nat → Int → Int → Int × Bool
  | 0, pos, _ => (pos, false)
  | f + 1, pos, i =>
    if 0 < i then
      let c := prevIndex input pos u
      let d := prevIndex s i u
      let cc := if ic then canonicalize D c u else c
      let dc := if ic then canonicalize D d u else d
      if cc ≠ dc then (pos, true)
      else refBackLoop D u ic input s f (pos - size c) (i - size d)
    else (pos, false)

/-- The result of one iteration of the inner thread loop. -/
inductive StepRes where
  | matched (m : Match)
  | cont (procs : List Proc)
  | oob
deriving DecidableEq, Repr

/-- One iteration of the inner loop of Program.exec: execute the op-code at
the top thread's pc.  The thread list is top-first (the source array keeps
the top at the end).  A backtrack pops the top thread. -/
def step (E : ExecEnv) (P : Program) (input : JSString) (proc : Proc)
    (rest : List Proc) : StepRes :=
  let u := P.flagSet.unicode
  let ic := P.flagSet.ignoreCase
  match getCode P proc.pc with
  | none => .oob
  | some code =>
    let proc := { proc with pc := proc.pc + 1 }
    match code with
    | .any =>
      let c := index input proc.pos u
      if 0 ≤ c ∧ (P.flagSet.dotAll ∨ ¬ isLineTerminator c) then
        .cont ({ proc with pos := proc.pos + size c } :: rest)
      else .cont rest
    | .back =>
      let c := prevIndex input proc.pos u
      if 0 ≤ c then .cont ({ proc with pos := proc.pos - size c } :: rest)
      else .cont rest
    | .cap_begin i =>
      .cont ({ proc with caps := setAtN proc.caps (i * 2) proc.pos } :: rest)
    | .cap_end i =>
      .cont ({ proc with caps := setAtN proc.caps (i * 2 + 1) proc.pos } :: rest)
    | .cap_reset f t =>
      .cont ({ proc with caps := capReset proc.caps f t } :: rest)
    | .char v =>
      let c := index input proc.pos u
      let bt1 := c < 0
      let cc := if ic then canonicalize E.D c u else c
      if cc = v then
        if bt1 then .cont rest
        else .cont ({ proc with pos := proc.pos + size c } :: rest)
      else .cont rest
    | .«class» set =>
      let c := index input proc.pos u
      if c < 0 then .cont rest
      else
        let cc := if ic then canonicalize E.D c u else c
        let actual0 := CharSet.hasI set cc
        let actual :=
          if ic then
            (uncanonicalize E.D cc u).foldl (fun a d => a || set.has d) actual0
          else actual0
        if actual = true then .cont ({ proc with pos := proc.pos + size c } :: rest)
        else .cont rest
    | .class_not set =>
      let c := index input proc.pos u
      if c < 0 then .cont rest
      else
        let cc := if ic then canonicalize E.D c u else c
        let actual0 := CharSet.hasI set cc
        let actual :=
          if ic then
            (uncanonicalize E.D cc u).foldl (fun a d => a || set.has d) actual0
          else actual0
        if actual = false then .cont ({ proc with pos := proc.pos + size c } :: rest)
        else .cont rest
    | .dec =>
      .cont ({ proc with
        stack := setAt proc.stack (proc.stackSize - 1)
          (intAt proc.stack (proc.stackSize - 1) - 1) } :: rest)
    | .empty_check =>
      let pos0 := intAt proc.stack (proc.stackSize - 1)
      let proc := { proc with stackSize := proc.stackSize - 1 }
      if pos0 = proc.pos then .cont rest else .cont (proc :: rest)
    | .fail => .cont rest
    | .fork_cont n => .cont (proc :: { proc with pc := proc.pc + n } :: rest)
    | .fork_next n => .cont ({ proc with pc := proc.pc + n } :: proc :: rest)
    | .jump n => .cont ({ proc with pc := proc.pc + n } :: rest)
    | .line_begin =>
      let c := prevIndex input proc.pos u
      if proc.pos ≠ 0 ∧ ¬ (P.flagSet.multiline ∧ isLineTerminator c) then .cont rest
      else .cont (proc :: rest)
    | .line_end =>
      let c := index input proc.pos u
      if proc.pos ≠ (input.length : Int) ∧
          ¬ (P.flagSet.multiline ∧ isLineTerminator c) then .cont rest
      else .cont (proc :: rest)
    | .loop n =>
      let k := intAt proc.stack (proc.stackSize - 1)
      if 0 < k then .cont ({ proc with pc := proc.pc + n } :: rest)
      else .cont (proc :: rest)
    | .«match» => .matched ⟨input, proc.caps, P.names⟩
    | .pop => .cont ({ proc with stackSize := proc.stackSize - 1 } :: rest)
    | .push v =>
      .cont ({ proc with
        stack := setAt proc.stack proc.stackSize v
        stackSize := proc.stackSize + 1 } :: rest)
    | .push_pos =>
      .cont ({ proc with
        stack := setAt proc.stack proc.stackSize proc.pos
        stackSize := proc.stackSize + 1 } :: rest)
    | .push_proc =>
      .cont ({ proc with
        stack := setAt proc.stack proc.stackSize ((rest.length : Int) + 1)
        stackSize := proc.stackSize + 1 } :: rest)
    | .ref i =>
      let b := capGet proc.caps (i * 2)
      let e := capGet proc.caps (i * 2 + 1)
      let s := if b < 0 ∨ e < 0 then [] else jsSlice input b e
      let r := refLoop E.D u ic input s (s.length + 1) proc.pos 0
      if r.2 then .cont rest else .cont ({ proc with pos := r.1 } :: rest)
    | .ref_back i =>
      let b := capGet proc.caps (i * 2)
      let e := capGet proc.caps (i * 2 + 1)
      let s := if b < 0 ∨ e < 0 then [] else jsSlice input b e
      let r := refBackLoop E.D u ic input s (s.length + 1) proc.pos s.length
      if r.2 then .cont rest else .cont ({ proc with pos := r.1 } :: rest)
    | .restore_pos =>
      let v := intAt proc.stack (proc.stackSize - 1)
      .cont ({ proc with
        pos := v
        stackSize := proc.stackSize - 1 } :: rest)
    | .rewind_proc =>
      let n := intAt proc.stack (proc.stackSize - 1)
      let proc := { proc with stackSize := proc.stackSize - 1 }
      let full := proc :: rest
      let trimmed := full.drop (full.length - n.toNat)
      match trimmed with
      | [] => .cont []
      | _ :: tl => .cont (proc :: tl)
    | .word_boundary =>
      let c := prevIndex input proc.pos u
      let d := index input proc.pos u
      let set := if u ∧ ic then E.unicodeWord else word
      let actual := CharSet.hasI set c ≠ CharSet.hasI set d
      if actual ≠ true then .cont rest else .cont (proc :: rest)
    | .word_boundary_not =>
      let c := prevIndex input proc.pos u
      let d := index input proc.pos u
      let set := if u ∧ ic then E.unicodeWord else word
      let actual := CharSet.hasI set c ≠ CharSet.hasI set d
      if actual ≠ false then .cont rest else .cont (proc :: rest)

/-- The outcome of the inner thread loop. -/
inductive InnerRes where
  | timeout
  | crash
  | matched (m : Match)
  | exhausted
deriving DecidableEq, Repr

/-- The inner while loop of Program.exec, with fuel. -/
def runProcs (E : ExecEnv) (P : Program) (input : JSString) :
    Nat → List Proc → InnerRes
  | _, [] => .exhausted
  | 0, _ :: _ => .timeout
  | Nat.succ fuel, proc :: rest =>
    match step E P input proc rest with
    | .matched m => .matched m
    | .oob => .crash
    | .cont ps => runProcs E P input fuel ps

/-- The outcome of Program.exec (timeout is fuel exhaustion of the model,
not a behavior of the source). -/
inductive ExecRes where
  | timeout
  | crash
  | ret (m : Option Match)
deriving DecidableEq, Repr

/-- createProc: a fresh thread at pos with a stack preallocated to
the precomputed maximum size and all captures unset. -/
def createProc (P : Program) (pos : Int) : Proc :=
  ⟨pos, 0, List.replicate (calculateMaxStackSize P.codes).toNat 0, 0,
    List.replicate ((P.captureParens + 1) * 2) (-1)⟩

/-- The outer loop of Program.exec: run the thread loop from each start
position; stop after the first start position when sticky.  The outer fuel
only matches the model to the while loop: pos advances every iteration, so
the fuel Program.exec supplies can never run out. -/
def execFrom (E : ExecEnv) (P : Program) (input : JSString) (fuel : Nat) :
    Nat → Int → ExecRes
  | 0, _ => .timeout
  | ofuel + 1, pos =>
    if pos ≤ (input.length : Int) then
      match runProcs E P input fuel [createProc P pos] with
      | .matched m => .ret (some m)
      | .timeout => .timeout
      | .crash => .crash
      | .exhausted =>
        if P.flagSet.sticky then .ret none
        else execFrom E P input fuel ofuel (pos + size (index input pos P.flagSet.unicode))
    else .ret none

/-- Program.exec. -/
def Program.exec (E : ExecEnv) (P : Program) (input : JSString) (fuel : Nat)
    (pos : Int := 0) : ExecRes :=
  execFrom E P input fuel (((input.length : Int) + 1 - pos).toNat + 1) pos

/-! ## syntax/pattern.ts — the AST -/

/-- A Char node ({ type: 'Char', value, raw, range }), also used as a class
atom. -/
structure CharData where
  value : Nat
  raw : JSString
  range : Nat × Nat
deriving DecidableEq, Repr

/-- The kind of an EscapeClass node. -/
inductive EscKind where
  | digit
  | word
  | space
  | unicode_property (property : JSString)
  | unicode_property_value (property : JSString) (value : JSString)
deriving DecidableEq, Repr

/-- An EscapeClass node ({ type: 'EscapeClass', kind, invert, range }). -/
structure EscData where
  kind : EscKind
  invert : Bool
  range : Nat × Nat
deriving DecidableEq, Repr

/-- An item of a character class: a Char, an EscapeClass or a ClassRange. -/
inductive ClassItem where
  | chr (c : CharData)
  | esc (e : EscData)
  | rng (b e : CharData) (range : Nat × Nat)
deriving DecidableEq, Repr

/-- The upper repetition bound: a number or Infinity. -/
inductive RMax where
  | num (n : Nat)
  | inf
deriving DecidableEq, Repr

/-- Pattern AST nodes (syntax/pattern.ts). -/
inductive Node where
  | Disjunction (children : List Node) (range : Nat × Nat)
  | Sequence (children : List Node) (range : Nat × Nat)
  | Capture (index : Nat) (child : Node) (range : Nat × Nat)
  | NamedCapture (name : JSString) (raw : JSString) (child : Node) (range : Nat × Nat)
  | Group (child : Node) (range : Nat × Nat)
  | Many (nonGreedy : Bool) (child : Node) (range : Nat × Nat)
  | Some (nonGreedy : Bool) (child : Node) (range : Nat × Nat)
  | Optional (nonGreedy : Bool) (child : Node) (range : Nat × Nat)
  | Repeat (min : Nat) (max : Option RMax) (nonGreedy : Bool) (child : Node)
      (range : Nat × Nat)
  | WordBoundary (invert : Bool) (range : Nat × Nat)
  | LineBegin (range : Nat × Nat)
  | LineEnd (range : Nat × Nat)
  | LookAhead (negative : Bool) (child : Node) (range : Nat × Nat)
  | LookBehind (negative : Bool) (child : Node) (range : Nat × Nat)
  | Char (c : CharData)
  | EscapeClass (e : EscData)
  | Class (invert : Bool) (children : List ClassItem) (range : Nat × Nat)
  | Dot (range : Nat × Nat)
  | BackRef (index : Nat) (range : Nat × Nat)
  | NamedBackRef (name : JSString) (raw : JSString) (range : Nat × Nat)
deriving Repr

/-- The parsed pattern (the root value returned by Parser.parse). -/
structure Pattern where
  flagSet : FlagSet
  captureParens : Nat
  names : List (JSString × Nat)
  child : Node
  range : Nat × Nat
deriving Repr

/-! ## syntax/parser.ts -/

/-- isAssertion: nodes that cannot be a child of a repetition. -/
def isAssertion : Node → Bool
  | .WordBoundary _ _ | .LineBegin _ | .LineEnd _
  | .LookAhead _ _ _ | .LookBehind _ _ _ => true
  | _ => false

/-- String.fromCodePoint on one code point. -/
def fromCodePoint (c : Nat) : JSString :=
  if c < 0x10000 then [c]
  else [0xd800 + (c - 0x10000) / 0x400, 0xdc00 + (c - 0x10000) % 0x400]

/-- isSequenceDelimiter. -/
def isSequenceDelimiter (c : JSString) : Bool :=
  c = [0x7c] ∨ c = [0x29] ∨ c = []

/-- isDigit on a code-point string. -/
def isDigit (c : JSString) : Bool :=
  match c with
  | [u] => 0x30 ≤ u ∧ u ≤ 0x39
  | _ => false

/-- isHexDigit on a code-point string. -/
def isHexDigit (c : JSString) : Bool :=
  isDigit c ||
    match c with
    | [u] => decide ((0x61 ≤ u ∧ u ≤ 0x66) ∨ (0x41 ≤ u ∧ u ≤ 0x46))
    | _ => false

/-- isSyntax: the character has meaning in a pattern. -/
def isSyntax (c : JSString) : Bool :=
  match c with
  | [u] =>
    u = 0x5e ∨ u = 0x24 ∨ u = 0x5c ∨ u = 0x2e ∨ u = 0x2a ∨ u = 0x2b ∨ u = 0x3f ∨
    u = 0x28 ∨ u = 0x29 ∨ u = 0x5b ∨ u = 0x5d ∨ u = 0x7b ∨ u = 0x7d ∨ u = 0x7c
  | _ => false

/-- isControl: a-z or A-Z. -/
def isControl (c : JSString) : Bool :=
  match c with
  | [u] => (0x61 ≤ u ∧ u ≤ 0x7a) ∨ (0x41 ≤ u ∧ u ≤ 0x5a)
  | _ => false

/-- isUnicodeProperty: a character of a Unicode property name. -/
def isUnicodeProperty (c : JSString) : Bool :=
  isControl c ∨ c = [0x5f]

/-- isUnicodePropertyValue: a character of a Unicode property value. -/
def isUnicodePropertyValue (c : JSString) : Bool :=
  isUnicodeProperty c ∨ isDigit c

/-- The ID_Start / ID_Continue character sets, external Unicode data. -/
structure ParserData where
  idStart : CharSet
  idContinue : CharSet

/-- isIDStart. -/
def isIDStart (PD : ParserData) (c : JSString) : Bool :=
  c = [0x24] ∨ c = [0x5f] ∨
    CharSet.hasI PD.idStart (((codePointAt c 0).map (Nat.cast)).getD (-1))

/-- isIDPart. -/
def isIDPart (PD : ParserData) (c : JSString) : Bool :=
  c = [0x24] ∨ c = [0x200c] ∨ c = [0x200d] ∨
    CharSet.hasI PD.idContinue (((codePointAt c 0).map (Nat.cast)).getD (-1))

/-- A repeat quantifier {n}, {n,} or {n,m}. -/
structure RepeatQuantifier where
  min : Nat
  max : Option RMax
deriving DecidableEq, Repr

/-- The fixed context of a parser run: the source, the unicode flag, the
additional (Annex B) switch, and the capture data gathered by the
preprocessing pass. -/
structure PCtx where
  source : JSString
  unicode : Bool
  additional : Bool
  captureParens : Nat
  names : List (JSString × Nat)
  PD : ParserData

/-- Map.get on an association list in insertion order. -/
def assocGet (l : List (JSString × Nat)) (k : JSString) : Option Nat :=
  (l.find? (fun p => p.1 = k)).map (·.2)

/-- Map.set on an association list: overwrite in place or append. -/
def assocSet (l : List (JSString × Nat)) (k : JSString) (v : Nat) :
    List (JSString × Nat) :=
  if (l.find? (fun p => p.1 = k)).isSome then
    l.map (fun p => if p.1 = k then (k, v) else p)
  else l ++ [(k, v)]

/-- Parser errors: a RegExpSyntaxError, an internal BUG Error, or fuel
exhaustion of the model. -/
inductive PErr where
  | syn (msg : String)
  | bug (msg : String)
  | fuel
deriving DecidableEq, Repr

/-- A parsing step: a value plus the updated state, or an error. -/
inductive Res (σ : Type) (α : Type) where
  | ok (a : α) (st : σ)
  | error (e : PErr)
deriving Repr

/-- current(): the code-point string at pos ('' at the end). -/
def PCtx.current (ctx : PCtx) (pos : Nat) : JSString :=
  if ctx.unicode then
    match codePointAt ctx.source pos with
    | none => []
    | some c => fromCodePoint c
  else
    match charCodeAt ctx.source pos with
    | none => []
    | some c => [c]

/-- source.startsWith(t, pos). -/
def PCtx.startsWith (ctx : PCtx) (t : JSString) (pos : Nat) : Bool :=
  (ctx.source.drop pos).take t.length = t

/-- The value of an ASCII hex digit code unit. -/
def hexVal (u : Nat) : Nat :=
  if 0x30 ≤ u ∧ u ≤ 0x39 then u - 0x30
  else if 0x61 ≤ u ∧ u ≤ 0x66 then u - 0x61 + 10
  else if 0x41 ≤ u ∧ u ≤ 0x46 then u - 0x41 + 10
  else 0

/-- The loop of parseDigits, accumulating the parsed decimal value. -/
def parseDigitsGo (ctx : PCtx) : Nat → Nat → Nat → Bool → Res Nat (Option Nat)
  | 0, _, _, _ => .error .fuel
  | f + 1, pos, acc, seen =>
    let c := ctx.current pos
    if isDigit c then parseDigitsGo ctx f (pos + 1) (acc * 10 + (c.headD 0 - 0x30)) true
    else if seen then .ok (some acc) pos
    else .ok none pos

/-- parseDigits: parse decimal digits; none stands for the -1 of the source. -/
def parseDigits (ctx : PCtx) (fuel pos : Nat) : Res Nat (Option Nat) :=
  parseDigitsGo ctx fuel pos 0 false

/-- The loop of parseHexDigits. -/
def parseHexDigitsGo (ctx : PCtx) : Nat → Nat → Nat → Bool → Res Nat (Option Nat)
  | 0, _, _, _ => .error .fuel
  | f + 1, pos, acc, seen =>
    let c := ctx.current pos
    if isHexDigit c then
      parseHexDigitsGo ctx f (pos + c.length) (acc * 16 + hexVal (c.headD 0)) true
    else if seen then .ok (some acc) pos
    else .ok none pos

/-- parseHexDigits: parse hex digits; none stands for the -1 of the source. -/
def parseHexDigits (ctx : PCtx) (fuel pos : Nat) : Res Nat (Option Nat) :=
  parseHexDigitsGo ctx fuel pos 0 false

/-- The loop of tryParseHexDigitsN, counting n down. -/
def tryParseHexDigitsNGo (ctx : PCtx) (save : Nat) : Nat → Nat → Nat → Res Nat (Option Nat)
  | 0, pos, acc => .ok (some acc) pos
  | n + 1, pos, acc =>
    let c := ctx.current pos
    if isHexDigit c then
      tryParseHexDigitsNGo ctx save n (pos + c.length) (acc * 16 + hexVal (c.headD 0))
    else .ok none save

/-- tryParseHexDigitsN: exactly n hex digits, or restore the position. -/
def tryParseHexDigitsN (ctx : PCtx) (n pos : Nat) : Res Nat (Option Nat) :=
  tryParseHexDigitsNGo ctx pos n pos 0

/-- tryParseUnicodeEscape: a uXXXX or (with the unicode flag) a u{XXXXXX}
escape after a backslash; the empty string reports failure. -/
def tryParseUnicodeEscape (ctx : PCtx) : Nat → Bool → Nat → Res Nat JSString
  | 0, _, _ => .error .fuel
  | f + 1, lead, pos0 =>
    let pos1 := pos0 + 1
    if ctx.current pos1 ≠ [0x75] then .ok [] pos0
    else
      let pos2 := pos1 + 1
      if ctx.unicode ∧ ctx.current pos2 = [0x7b] then
        if ¬ lead then .ok [] pos0
        else
          match parseHexDigits ctx f (pos2 + 1) with
          | .error e => .error e
          | .ok copt pos4 =>
            if copt.isNone ∨ 0x110000 ≤ copt.getD 0 ∨ ctx.current pos4 ≠ [0x7d] then
              .error (.syn "invalid Unicode escape")
            else .ok (fromCodePoint (copt.getD 0)) (pos4 + 1)
      else
        match tryParseHexDigitsN ctx 4 pos2 with
        | .error e => .error e
        | .ok none _ =>
          if ctx.additional ∧ ¬ ctx.unicode then .ok [] pos0
          else .error (.syn "invalid Unicode escape")
        | .ok (some c) pos5 =>
          let s : JSString := [c]
          if ¬ ctx.unicode then .ok s pos5
          else if lead ∧ 0xd800 ≤ c ∧ c ≤ 0xdbff ∧ ctx.current pos5 = [0x5c] then
            match tryParseUnicodeEscape ctx f false pos5 with
            | .error e => .error e
            | .ok t pos6 =>
              if (match t with
                  | [d] => decide (0xdc00 ≤ d ∧ d ≤ 0xdfff)
                  | _ => false) then
                .ok (s ++ t) pos6
              else .ok s pos5
          else .ok s pos5

/-- parseCaptureNameChar: one character of a capture name; a Unicode escape
counts as a character. -/
def parseCaptureNameChar (ctx : PCtx) (fuel pos : Nat) : Res Nat JSString :=
  let c := ctx.current pos
  if c = [0x5c] then tryParseUnicodeEscape ctx fuel true pos
  else .ok c (pos + c.length)

/-- The collection loop of parseCaptureName. -/
def parseCaptureNameLoop (ctx : PCtx) : Nat → Nat → JSString → Res Nat JSString
  | 0, _, _ => .error .fuel
  | f + 1, pos, name =>
    match parseCaptureNameChar ctx f pos with
    | .error e => .error e
    | .ok part pos' =>
      if ¬ isIDPart ctx.PD part then
        if ctx.current pos = [0x3e] then .ok name (pos + 1)
        else .error (.syn "invalid capture group name")
      else parseCaptureNameLoop ctx f pos' (name ++ part)

/-- parseCaptureName, including the closing greater-than sign. -/
def parseCaptureName (ctx : PCtx) : Nat → Nat → Res Nat JSString
  | 0, _ => .error .fuel
  | f + 1, pos =>
    match parseCaptureNameChar ctx f pos with
    | .error e => .error e
    | .ok start pos1 =>
      if ¬ isIDStart ctx.PD start then .error (.syn "invalid capture group name")
      else parseCaptureNameLoop ctx f pos1 start

/-- The collection loop of parseUnicodePropertyName. -/
def parseUnicodePropertyName (ctx : PCtx) : Nat → Nat → JSString → Res Nat JSString
  | 0, _, _ => .error .fuel
  | f + 1, pos, acc =>
    let c := ctx.current pos
    if isUnicodeProperty c then parseUnicodePropertyName ctx f (pos + c.length) (acc ++ c)
    else .ok acc pos

/-- The collection loop of parseUnicodePropertyValue. -/
def parseUnicodePropertyValue (ctx : PCtx) : Nat → Nat → JSString → Res Nat JSString
  | 0, _, _ => .error .fuel
  | f + 1, pos, acc =>
    let c := ctx.current pos
    if isUnicodePropertyValue c then parseUnicodePropertyValue ctx f (pos + c.length) (acc ++ c)
    else .ok acc pos

/-- tryParseEscapeClass: a d/D, w/W, s/S or (unicode) p/P escape class. -/
def tryParseEscapeClass (ctx : PCtx) (fuel : Nat) (pos0 : Nat) :
    Res Nat (Option EscData) :=
  let pos := pos0 + 1
  let c := ctx.current pos
  if c = [0x64] ∨ c = [0x44] then
    .ok (some ⟨.digit, c = [0x44], (pos0, pos + 1)⟩) (pos + 1)
  else if c = [0x77] ∨ c = [0x57] then
    .ok (some ⟨.word, c = [0x57], (pos0, pos + 1)⟩) (pos + 1)
  else if c = [0x73] ∨ c = [0x53] then
    .ok (some ⟨.space, c = [0x53], (pos0, pos + 1)⟩) (pos + 1)
  else if (c = [0x70] ∨ c = [0x50]) ∧ ctx.unicode then
    let invert := c = [0x50]
    let pos := pos + 1
    if ctx.current pos ≠ [0x7b] then .error (.syn "invalid Unicode property escape")
    else
      match parseUnicodePropertyName ctx fuel (pos + 1) [] with
      | .error e => .error e
      | .ok property pos =>
        if property = [] then .error (.syn "invalid Unicode property name")
        else if ctx.current pos = [0x7d] then
          .ok (some ⟨.unicode_property property, invert, (pos0, pos + 1)⟩) (pos + 1)
        else if ctx.current pos ≠ [0x3d] then
          .error (.syn "invalid Unicode property escape")
        else
          match parseUnicodePropertyValue ctx fuel (pos + 1) [] with
          | .error e => .error e
          | .ok value pos =>
            if value = [] then .error (.syn "invalid Unicode property value")
            else if ctx.current pos ≠ [0x7d] then
              .error (.syn "invalid Unicode property escape")
            else
              .ok (some ⟨.unicode_property_value property value, invert, (pos0, pos + 1)⟩)
                (pos + 1)
  else .ok none pos0

/-- Octal digit test on a code-point string. -/
def isOctIn (c : JSString) (lo hi : Nat) : Bool :=
  match c with
  | [u] => lo ≤ u ∧ u ≤ hi
  | _ => false

/-- The value of a string of octal digit units. -/
def octVal (ds : JSString) : Nat := ds.foldl (fun acc u => acc * 8 + (u - 0x30)) 0

/-- The legacy-octal and identity-escape tail of tryParseEscape, reached
when no escape case matched severed by a break. -/
def escLegacyTail (ctx : PCtx) (begin0 pos : Nat) : Res Nat (Option CharData) :=
  let afterOctal : Nat :=
    if ctx.additional ∧ ¬ ctx.unicode then
      let c0 := ctx.current pos
      if isOctIn c0 0x30 0x33 then
        let p1 := pos + 1
        let c1 := ctx.current p1
        if isOctIn c1 0x30 0x37 then
          let p2 := p1 + 1
          let c2 := ctx.current p2
          if isOctIn c2 0x30 0x37 then p2 + 1 else p2
        else p1
      else if isOctIn c0 0x34 0x37 then
        let p1 := pos + 1
        let c1 := ctx.current p1
        if isOctIn c1 0x30 0x37 then p1 + 1 else p1
      else pos
    else pos
  if afterOctal ≠ pos then
    let value := octVal ((ctx.source.drop pos).take (afterOctal - pos))
    .ok (some ⟨value, (ctx.source.drop begin0).take (afterOctal - begin0),
      (begin0, afterOctal)⟩) afterOctal
  else
    let c := ctx.current pos
    match codePointAt c 0 with
    | none => .error (.bug "invalid character")
    | some value =>
      if ctx.unicode then
        if isSyntax c ∨ c = [0x2f] then
          .ok (some ⟨value, 0x5c :: c, (begin0, pos + c.length)⟩) (pos + c.length)
        else .ok none begin0
      else if ctx.additional then
        if c = [0x63] then .ok (some ⟨0x5c, [0x5c], (begin0, pos)⟩) pos
        else if ctx.names.length = 0 ∨ c ≠ [0x6b] then
          .ok (some ⟨value, 0x5c :: c, (begin0, pos + c.length)⟩) (pos + c.length)
        else .ok none begin0
      else
        if ¬ CharSet.hasI ctx.PD.idContinue value then
          .ok (some ⟨value, 0x5c :: c, (begin0, pos + c.length)⟩) (pos + c.length)
        else .ok none begin0

/-- tryParseEscape: an escape sequence yielding a single character. -/
def tryParseEscape (ctx : PCtx) (fuel : Nat) (begin0 : Nat) :
    Res Nat (Option CharData) :=
  match tryParseUnicodeEscape ctx fuel true begin0 with
  | .error e => .error e
  | .ok uni posU =>
    if uni ≠ [] then
      match codePointAt uni 0 with
      | none => .error (.bug "invalid character")
      | some value =>
        .ok (some ⟨value, (ctx.source.drop begin0).take (posU - begin0),
          (begin0, posU)⟩) posU
    else
      let pos := begin0 + 1
      let c := ctx.current pos
      if c = [0x74] then .ok (some ⟨0x09, [0x5c, 0x74], (begin0, pos + 1)⟩) (pos + 1)
      else if c = [0x6e] then .ok (some ⟨0x0a, [0x5c, 0x6e], (begin0, pos + 1)⟩) (pos + 1)
      else if c = [0x76] then .ok (some ⟨0x0b, [0x5c, 0x76], (begin0, pos + 1)⟩) (pos + 1)
      else if c = [0x66] then .ok (some ⟨0x0c, [0x5c, 0x66], (begin0, pos + 1)⟩) (pos + 1)
      else if c = [0x72] then .ok (some ⟨0x0d, [0x5c, 0x72], (begin0, pos + 1)⟩) (pos + 1)
      else if c = [0x63] then
        let pos1 := pos + 1
        let d := ctx.current pos1
        if isControl d then
          let value := d.headD 0 % 32
          .ok (some ⟨value, (ctx.source.drop begin0).take (pos1 + 1 - begin0),
            (begin0, pos1 + 1)⟩) (pos1 + 1)
        else if ctx.additional ∧ ¬ ctx.unicode then escLegacyTail ctx begin0 pos
        else .error (.syn "invalid control escape")
      else if c = [0x78] then
        match tryParseHexDigitsN ctx 2 (pos + 1) with
        | .error e => .error e
        | .ok none _ => escLegacyTail ctx begin0 pos
        | .ok (some value) pos2 =>
          .ok (some ⟨value, (ctx.source.drop begin0).take (pos2 - begin0),
            (begin0, pos2)⟩) pos2
      else if c = [0x30] then
        if isDigit (ctx.current (pos + 1)) then escLegacyTail ctx begin0 pos
        else .ok (some ⟨0, [0x5c, 0x30], (begin0, pos + 1)⟩) (pos + 1)
      else if c = [] then .error (.syn "backslash at end of pattern")
      else escLegacyTail ctx begin0 pos

/-- tryParseWordBoundary. -/
def tryParseWordBoundary (ctx : PCtx) (pos : Nat) : Option (Node × Nat) :=
  if ctx.startsWith [0x5c, 0x62] pos then
    some (.WordBoundary false (pos, pos + 2), pos + 2)
  else if ctx.startsWith [0x5c, 0x42] pos then
    some (.WordBoundary true (pos, pos + 2), pos + 2)
  else none

/-- tryParseBackRef: a numbered or named back reference. -/
def tryParseBackRef (ctx : PCtx) (fuel : Nat) (begin0 : Nat) :
    Res Nat (Option Node) :=
  let pos := begin0 + 1
  if 0 < ctx.names.length ∧ ctx.current pos = [0x6b] then
    let pos := pos + 1
    if ctx.current pos ≠ [0x3c] then .error (.syn "invalid named back reference")
    else
      let namePos := pos + 1
      match parseCaptureName ctx fuel namePos with
      | .error e => .error e
      | .ok name pos' =>
        .ok (some (.NamedBackRef name
          ((ctx.source.drop namePos).take (pos' - 1 - namePos)) (begin0, pos'))) pos'
  else
    if ctx.current pos ≠ [0x30] then
      match parseDigits ctx fuel pos with
      | .error e => .error e
      | .ok (some idx) pos' =>
        if 1 ≤ idx then
          if ctx.additional ∧ ¬ ctx.unicode then
            if idx ≤ ctx.captureParens then
              .ok (some (.BackRef idx (begin0, pos'))) pos'
            else .ok none begin0
          else .ok (some (.BackRef idx (begin0, pos'))) pos'
        else .ok none begin0
      | .ok none _ => .ok none begin0
    else .ok none begin0

/-- parseEscape: word boundary, back reference, escape class or character
escape; anything else is an invalid escape. -/
def parseEscape (ctx : PCtx) (fuel pos : Nat) : Res Nat Node :=
  match tryParseWordBoundary ctx pos with
  | some (n, pos') => .ok n pos'
  | none =>
    match tryParseBackRef ctx fuel pos with
    | .error e => .error e
    | .ok (some n) pos' => .ok n pos'
    | .ok none _ =>
      match tryParseEscapeClass ctx fuel pos with
      | .error e => .error e
      | .ok (some e) pos' => .ok (.EscapeClass e) pos'
      | .ok none _ =>
        match tryParseEscape ctx fuel pos with
        | .error e => .error e
        | .ok (some ch) pos' => .ok (.Char ch) pos'
        | .ok none _ => .error (.syn "invalid escape")

/-- The loop of skipCharClass. -/
def skipCharClassGo (ctx : PCtx) : Nat → Nat → Res Nat Unit
  | 0, _ => .error .fuel
  | f + 1, pos =>
    if pos < ctx.source.length then
      let c := ctx.current pos
      if c = [0x5d] then .ok () (pos + 1)
      else if c = [0x5c] then
        skipCharClassGo ctx f (pos + 1 + (ctx.current (pos + 1)).length)
      else skipCharClassGo ctx f (pos + c.length)
    else .ok () pos

/-- skipCharClass: skip a character class without parsing it. -/
def skipCharClass (ctx : PCtx) (fuel pos : Nat) : Res Nat Unit :=
  skipCharClassGo ctx fuel (pos + 1)

/-- The state of the capture-preprocessing pass. -/
structure PPSt where
  pos : Nat
  captureParens : Nat
  names : List (JSString × Nat)
deriving Repr

/-- preprocessCaptures: count capture parens and collect capture names
before the semantic parse. -/
def preprocessCaptures (ctx : PCtx) : Nat → PPSt → Res PPSt Unit
  | 0, _ => .error .fuel
  | f + 1, st =>
    if st.pos < ctx.source.length then
      let c := ctx.current st.pos
      if c = [0x28] then
        if ctx.startsWith [0x28, 0x3f, 0x3c] st.pos then
          let pos := st.pos + 3
          let d := ctx.current pos
          if d ≠ [0x3d] ∧ d ≠ [0x21] then
            let parens := st.captureParens + 1
            match parseCaptureName ctx f pos with
            | .error e => .error e
            | .ok name pos' =>
              preprocessCaptures ctx f
                ⟨pos', parens, assocSet st.names name parens⟩
          else preprocessCaptures ctx f { st with pos := pos }
        else
          let parens :=
            if ¬ ctx.startsWith [0x28, 0x3f] st.pos then st.captureParens + 1
            else st.captureParens
          preprocessCaptures ctx f { st with pos := st.pos + 1, captureParens := parens }
      else if c = [0x5c] then
        preprocessCaptures ctx f
          { st with pos := st.pos + 1 + (ctx.current (st.pos + 1)).length }
      else if c = [0x5b] then
        match skipCharClass ctx f st.pos with
        | .error e => .error e
        | .ok _ pos' => preprocessCaptures ctx f { st with pos := pos' }
      else preprocessCaptures ctx f { st with pos := st.pos + c.length }
    else .ok () st

/-- tryParseRepeatQuantifier: a {n}, {n,} or {n,m} suffix; restores the
position and reports none when it is not one. -/
def tryParseRepeatQuantifier (ctx : PCtx) (fuel : Nat) (save : Nat) :
    Res Nat (Option RepeatQuantifier) :=
  let pos := save + 1
  match parseDigits ctx fuel pos with
  | .error e => .error e
  | .ok none _ => .ok none save
  | .ok (some min) pos =>
    let afterMax : Res Nat (Option (Option RMax)) :=
      if ctx.current pos = [0x2c] then
        let pos := pos + 1
        if ctx.current pos = [0x7d] then .ok (some (some .inf)) pos
        else
          match parseDigits ctx fuel pos with
          | .error e => .error e
          | .ok none _ => .ok none save
          | .ok (some m) pos => .ok (some (some (.num m))) pos
      else .ok (some none) pos
    match afterMax with
    | .error e => .error e
    | .ok none _ => .ok none save
    | .ok (some max) pos =>
      if ctx.current pos ≠ [0x7d] then .ok none save
      else .ok (some ⟨min, max⟩) (pos + 1)

/-- The state of the main parse: the position and the running capture-paren
index. -/
structure PSt where
  pos : Nat
  captureParensIndex : Nat
deriving Repr

/-- The class-atom result: a Char or an EscapeClass. -/
inductive ClassAtom where
  | chr (c : CharData)
  | esc (e : EscData)
deriving Repr

/-- parseClassAtom: one atom of a character class. -/
def parseClassAtom (ctx : PCtx) (fuel pos0 : Nat) : Res Nat ClassAtom :=
  let c := ctx.current pos0
  if c = [] then .error (.syn "unterminated character class")
  else if c ≠ [0x5c] then
    match codePointAt c 0 with
    | none => .error (.bug "invalid character")
    | some value => .ok (.chr ⟨value, c, (pos0, pos0 + c.length)⟩) (pos0 + c.length)
  else if ctx.startsWith [0x5c, 0x2d] pos0 then
    .ok (.chr ⟨0x2d, [0x5c, 0x2d], (pos0, pos0 + 2)⟩) (pos0 + 2)
  else if ctx.startsWith [0x5c, 0x62] pos0 then
    .ok (.chr ⟨0x08, [0x5c, 0x62], (pos0, pos0 + 2)⟩) (pos0 + 2)
  else
    match tryParseEscapeClass ctx fuel pos0 with
    | .error e => .error e
    | .ok (some e) pos' => .ok (.esc e) pos'
    | .ok none _ =>
      match tryParseEscape ctx fuel pos0 with
      | .error e => .error e
      | .ok (some ch) pos' => .ok (.chr ch) pos'
      | .ok none _ => .error (.syn "invalid escape")

/-- parseClassItem: a class atom or a class range. -/
def parseClassItem (ctx : PCtx) (fuel beginPos : Nat) : Res Nat ClassItem :=
  match parseClassAtom ctx fuel beginPos with
  | .error e => .error e
  | .ok a pos =>
    if ctx.current pos ≠ [0x2d] then
      .ok (match a with | .chr c => .chr c | .esc e => .esc e) pos
    else if ctx.startsWith [0x2d, 0x5d] pos then
      .ok (match a with | .chr c => .chr c | .esc e => .esc e) pos
    else
      match a with
      | .esc e =>
        if ctx.additional ∧ ¬ ctx.unicode then .ok (.esc e) pos
        else .error (.syn "invalid character class")
      | .chr b =>
        match parseClassAtom ctx fuel (pos + 1) with
        | .error e => .error e
        | .ok (.esc _) _ =>
          if ctx.additional ∧ ¬ ctx.unicode then .ok (.chr b) pos
          else .error (.syn "invalid character class")
        | .ok (.chr en) pos' =>
          if en.value < b.value then
            .error (.syn "range out of order in character class")
          else .ok (.rng b en (beginPos, pos')) pos'

/-- The item loop of parseClass. -/
def parseClassItems (ctx : PCtx) : Nat → Nat → List ClassItem → Res Nat (List ClassItem)
  | 0, _, _ => .error .fuel
  | f + 1, pos, acc =>
    if ctx.current pos = [0x5d] then .ok acc pos
    else
      match parseClassItem ctx f pos with
      | .error e => .error e
      | .ok item pos' => parseClassItems ctx f pos' (acc ++ [item])

/-- parseClass: a bracketed character class. -/
def parseClass (ctx : PCtx) (fuel begin0 : Nat) : Res Nat Node :=
  let pos := begin0 + 1
  let invert := ctx.current pos = [0x5e]
  let pos := if invert then pos + 1 else pos
  match parseClassItems ctx fuel pos [] with
  | .error e => .error e
  | .ok children pos' =>
    .ok (.Class invert children (begin0, pos' + 1)) (pos' + 1)

/-- parseSimpleQuantifier: a *, + or ? suffix, with an optional non-greedy
question mark.  The node constructor for the quantifier type is passed in. -/
def parseSimpleQuantifier (ctx : PCtx) (mk : Bool → Nat × Nat → Node)
    (begin0 : Nat) (st : PSt) : Res PSt Node :=
  let pos := st.pos + 1
  if ctx.current pos = [0x3f] then .ok (mk true (begin0, pos + 1)) { st with pos := pos + 1 }
  else .ok (mk false (begin0, pos)) { st with pos := pos }

/-- parseRepeat: a {n}, {n,} or {n,m} suffix on child. -/
def parseRepeat (ctx : PCtx) (fuel : Nat) (begin0 : Nat) (child : Node) (st : PSt) :
    Res PSt Node :=
  match tryParseRepeatQuantifier ctx fuel st.pos with
  | .error e => .error e
  | .ok none _ =>
    if ctx.additional ∧ ¬ ctx.unicode then .ok child st
    else .error (.syn "incomplete quantifier")
  | .ok (some q) pos =>
    let bad :=
      match q.max with
      | none => false
      | some .inf => false
      | some (.num m) => m < q.min
    if bad then .error (.syn "numbers out of order in quantifier")
    else if ctx.current pos = [0x3f] then
      .ok (.Repeat q.min q.max true child (begin0, pos + 1)) { st with pos := pos + 1 }
    else .ok (.Repeat q.min q.max false child (begin0, pos)) { st with pos := pos }

/-- Is the node a LookAhead node. -/
def isLookAhead : Node → Bool
  | .LookAhead _ _ _ => true
  | _ => false

/-- The entry points of the mutually recursive parsing routines, as the
dispatch argument of the single worker parseRun (the loop entries carry
the loop accumulators). -/
inductive PCall where
  | disj
  | disjLoop (begin0 : Nat) (children : List Node)
  | seq
  | seqLoop (begin0 : Nat) (children : List Node)
  | quant
  | «atom»
  | paren

/-- parseRun: the mutually recursive block parseDisjunction /
parseSequence / parseQuantifier / parseAtom / parseParen of the source,
presented as one fueled worker dispatching on a PCall tag so that each
routine is a plain instantiation of it (see the wrappers below). -/
def parseRun (ctx : PCtx) : Nat → PCall → PSt → Res PSt Node
  | 0, _, _ => .error .fuel
  | f + 1, .disj, st =>
    match parseRun ctx f .seq st with
    | .error e => .error e
    | .ok first st' => parseRun ctx f (.disjLoop st.pos [first]) st'
  | f + 1, .disjLoop begin0 children, st =>
    if ctx.current st.pos = [0x7c] then
      match parseRun ctx f .seq { st with pos := st.pos + 1 } with
      | .error e => .error e
      | .ok n st' => parseRun ctx f (.disjLoop begin0 (children ++ [n])) st'
    else
      match children with
      | [single] => .ok single st
      | _ => .ok (.Disjunction children (begin0, st.pos)) st
  | f + 1, .seq, st => parseRun ctx f (.seqLoop st.pos []) st
  | f + 1, .seqLoop begin0 children, st =>
    if isSequenceDelimiter (ctx.current st.pos) then
      match children with
      | [single] => .ok single st
      | _ => .ok (.Sequence children (begin0, st.pos)) st
    else
      match parseRun ctx f .quant st with
      | .error e => .error e
      | .ok n st' => parseRun ctx f (.seqLoop begin0 (children ++ [n])) st'
  | f + 1, .quant, st =>
    match parseRun ctx f .atom st with
    | .error e => .error e
    | .ok child st' =>
      if isAssertion child ∧
          ¬ (ctx.additional ∧ ¬ ctx.unicode ∧ isLookAhead child) then
        .ok child st'
      else
        let c := ctx.current st'.pos
        if c = [0x2a] then
          parseSimpleQuantifier ctx (fun ng r => .Many ng child r) st.pos st'
        else if c = [0x2b] then
          parseSimpleQuantifier ctx (fun ng r => .Some ng child r) st.pos st'
        else if c = [0x3f] then
          parseSimpleQuantifier ctx (fun ng r => .Optional ng child r) st.pos st'
        else if c = [0x7b] then parseRepeat ctx f st.pos child st'
        else .ok child st'
  | f + 1, .atom, st =>
    let begin0 := st.pos
    let c := ctx.current begin0
    let atomChar : Res PSt Node :=
      match codePointAt c 0 with
      | none => .error (.bug "invalid character")
      | some value =>
        .ok (.Char ⟨value, c, (begin0, begin0 + c.length)⟩)
          { st with pos := begin0 + c.length }
    if c = [0x2e] then .ok (.Dot (begin0, begin0 + 1)) { st with pos := begin0 + 1 }
    else if c = [0x5e] then
      .ok (.LineBegin (begin0, begin0 + 1)) { st with pos := begin0 + 1 }
    else if c = [0x24] then
      .ok (.LineEnd (begin0, begin0 + 1)) { st with pos := begin0 + 1 }
    else if c = [0x5b] then
      match parseClass ctx f begin0 with
      | .error e => .error e
      | .ok n pos' => .ok n { st with pos := pos' }
    else if c = [0x5c] then
      match parseEscape ctx f begin0 with
      | .error e => .error e
      | .ok n pos' => .ok n { st with pos := pos' }
    else if c = [0x28] then parseRun ctx f .paren st
    else if c = [0x2a] ∨ c = [0x2b] ∨ c = [0x3f] then .error (.syn "nothing to repeat")
    else if c = [0x7b] then
      if ctx.additional ∧ ¬ ctx.unicode then
        match tryParseRepeatQuantifier ctx f begin0 with
        | .error e => .error e
        | .ok (some _) _ => .error (.syn "nothing to repeat")
        | .ok none _ => atomChar
      else .error (.syn "lone quantifier brackets")
    else if c = [0x7d] then
      if ctx.additional ∧ ¬ ctx.unicode then atomChar
      else .error (.syn "lone quantifier brackets")
    else if c = [0x5d] then
      if ctx.additional ∧ ¬ ctx.unicode then atomChar
      else .error (.syn "lone character class brackets")
    else if c = [0x29] ∨ c = [0x7c] ∨ c = [] then .error (.bug "invalid character")
    else atomChar
  | f + 1, .paren, st =>
    let begin0 := st.pos
    if ¬ ctx.startsWith [0x28, 0x3f] begin0 then
      match parseRun ctx f .disj { st with pos := begin0 + 1 } with
      | .error e => .error e
      | .ok child st' =>
        let index := st'.captureParensIndex + 1
        if ctx.current st'.pos ≠ [0x29] then .error (.syn "unterminated capture")
        else
          .ok (.Capture index child (begin0, st'.pos + 1))
            { pos := st'.pos + 1, captureParensIndex := index }
    else if ctx.startsWith [0x28, 0x3f, 0x3a] begin0 then
      match parseRun ctx f .disj { st with pos := begin0 + 3 } with
      | .error e => .error e
      | .ok child st' =>
        if ctx.current st'.pos ≠ [0x29] then .error (.syn "unterminated group")
        else .ok (.Group child (begin0, st'.pos + 1)) { st' with pos := st'.pos + 1 }
    else if ctx.startsWith [0x28, 0x3f, 0x3d] begin0 then
      match parseRun ctx f .disj { st with pos := begin0 + 3 } with
      | .error e => .error e
      | .ok child st' =>
        if ctx.current st'.pos ≠ [0x29] then .error (.syn "unterminated look-ahead")
        else
          .ok (.LookAhead false child (begin0, st'.pos + 1)) { st' with pos := st'.pos + 1 }
    else if ctx.startsWith [0x28, 0x3f, 0x21] begin0 then
      match parseRun ctx f .disj { st with pos := begin0 + 3 } with
      | .error e => .error e
      | .ok child st' =>
        if ctx.current st'.pos ≠ [0x29] then .error (.syn "unterminated look-ahead")
        else
          .ok (.LookAhead true child (begin0, st'.pos + 1)) { st' with pos := st'.pos + 1 }
    else if ctx.startsWith [0x28, 0x3f, 0x3c, 0x3d] begin0 then
      match parseRun ctx f .disj { st with pos := begin0 + 4 } with
      | .error e => .error e
      | .ok child st' =>
        if ctx.current st'.pos ≠ [0x29] then .error (.syn "unterminated look-behind")
        else
          .ok (.LookBehind false child (begin0, st'.pos + 1)) { st' with pos := st'.pos + 1 }
    else if ctx.startsWith [0x28, 0x3f, 0x3c, 0x21] begin0 then
      match parseRun ctx f .disj { st with pos := begin0 + 4 } with
      | .error e => .error e
      | .ok child st' =>
        if ctx.current st'.pos ≠ [0x29] then .error (.syn "unterminated look-behind")
        else
          .ok (.LookBehind true child (begin0, st'.pos + 1)) { st' with pos := st'.pos + 1 }
    else if ctx.startsWith [0x28, 0x3f, 0x3c] begin0 then
      let index := st.captureParensIndex + 1
      let namePos := begin0 + 3
      match parseCaptureName ctx f namePos with
      | .error e => .error e
      | .ok name pos' =>
        let raw := (ctx.source.drop namePos).take (pos' - 1 - namePos)
        if assocGet ctx.names name ≠ some index then .error (.bug "invalid named capture")
        else
          match parseRun ctx f .disj { pos := pos', captureParensIndex := index } with
          | .error e => .error e
          | .ok child st' =>
            if ctx.current st'.pos ≠ [0x29] then
              .error (.syn "unterminated named capture")
            else
              .ok (.NamedCapture name raw child (begin0, st'.pos + 1))
                { st' with pos := st'.pos + 1 }
    else .error (.syn "invalid group")

/-- parseDisjunction: alternatives separated by vertical bars. -/
def parseDisjunction (ctx : PCtx) (fuel : Nat) (st : PSt) : Res PSt Node :=
  parseRun ctx fuel .disj st

/-- The vertical-bar loop of parseDisjunction. -/
def parseDisjunctionLoop (ctx : PCtx) (fuel begin0 : Nat) (children : List Node)
    (st : PSt) : Res PSt Node :=
  parseRun ctx fuel (.disjLoop begin0 children) st

/-- parseSequence: a concatenation of quantified atoms. -/
def parseSequence (ctx : PCtx) (fuel : Nat) (st : PSt) : Res PSt Node :=
  parseRun ctx fuel .seq st

/-- The term loop of parseSequence. -/
def parseSequenceLoop (ctx : PCtx) (fuel begin0 : Nat) (children : List Node)
    (st : PSt) : Res PSt Node :=
  parseRun ctx fuel (.seqLoop begin0 children) st

/-- parseQuantifier: an atom with an optional quantifier suffix.  An
assertion takes no quantifier, except a look-ahead in additional
non-unicode mode. -/
def parseQuantifier (ctx : PCtx) (fuel : Nat) (st : PSt) : Res PSt Node :=
  parseRun ctx fuel .quant st

/-- parseAtom: one atom (including the assertion atoms). -/
def parseAtom (ctx : PCtx) (fuel : Nat) (st : PSt) : Res PSt Node :=
  parseRun ctx fuel .atom st

/-- parseParen: captures, groups, look-arounds and named captures.  For an
unnamed capture the source draws the index after parsing the child; for a
named capture it draws the index before. -/
def parseParen (ctx : PCtx) (fuel : Nat) (st : PSt) : Res PSt Node :=
  parseRun ctx fuel .paren st

/-- The worker of codePointStrs: the first argument holds a pending lead
code unit whose successor has not been examined yet. -/
def codePointStrsGo : Option Nat → JSString → List JSString
  | none, [] => []
  | some u, [] => [[u]]
  | none, v :: rest => codePointStrsGo (some v) rest
  | some u, v :: rest =>
    if 0xd800 ≤ u ∧ u ≤ 0xdbff ∧ 0xdc00 ≤ v ∧ v ≤ 0xdfff then
      [u, v] :: codePointStrsGo none rest
    else [u] :: codePointStrsGo (some v) rest

/-- The code-point strings a for-of loop yields from a string. -/
def codePointStrs (s : JSString) : List JSString :=
  codePointStrsGo none s

/-- The all-false flag set preprocessFlags starts from. -/
def emptyFlagSet : FlagSet := ⟨false, false, false, false, false, false⟩

/-- The flag loop of preprocessFlags.  The source's duplicate-y error
message names the s flag; only the message differs. -/
def preprocessFlagsGo : List JSString → FlagSet → Except String FlagSet
  | [], fs => .ok fs
  | c :: rest, fs =>
    if c = [0x67] then
      if fs.global then .error "duplicated flag g" else
        preprocessFlagsGo rest { fs with global := true }
    else if c = [0x69] then
      if fs.ignoreCase then .error "duplicated flag i" else
        preprocessFlagsGo rest { fs with ignoreCase := true }
    else if c = [0x6d] then
      if fs.multiline then .error "duplicated flag m" else
        preprocessFlagsGo rest { fs with multiline := true }
    else if c = [0x73] then
      if fs.dotAll then .error "duplicated flag s" else
        preprocessFlagsGo rest { fs with dotAll := true }
    else if c = [0x75] then
      if fs.unicode then .error "duplicated flag u" else
        preprocessFlagsGo rest { fs with unicode := true }
    else if c = [0x79] then
      if fs.sticky then .error "duplicated flag s" else
        preprocessFlagsGo rest { fs with sticky := true }
    else .error "unknown flag"

/-- preprocessFlags: fold the flag characters into a FlagSet, rejecting
duplicates and unknown flags. -/
def preprocessFlags (flags : JSString) : Except String FlagSet :=
  preprocessFlagsGo (codePointStrs flags) emptyFlagSet

/-- Parser.parse: preprocess the flags and the captures, then parse the
disjunction and demand the source be consumed. -/
def Parser.parse (source flags : JSString) (additional : Bool) (PD : ParserData)
    (fuel : Nat) : Except PErr Pattern :=
  match preprocessFlags flags with
  | .error m => .error (.syn m)
  | .ok flagSet =>
    let ctx0 : PCtx := ⟨source, flagSet.unicode, additional, 0, [], PD⟩
    match preprocessCaptures ctx0 fuel ⟨0, 0, []⟩ with
    | .error e => .error e
    | .ok _ pst =>
      let ctx : PCtx :=
        ⟨source, flagSet.unicode, additional, pst.captureParens, pst.names, PD⟩
      match parseDisjunction ctx fuel ⟨0, 0⟩ with
      | .error e => .error e
      | .ok child st =>
        if ctx.current st.pos ≠ [] then .error (.syn "too many close parens")
        else .ok ⟨flagSet, pst.captureParens, pst.names, child, (0, st.pos)⟩

/-! ## engine/match.ts (the Match record of the engine layout) -/

/-- caps[i] ?? -1 on an Int index: out of range or negative reads -1. -/
def capRead (caps : List Int) (i : Int) : Int :=
  if 0 ≤ i ∧ i < (caps.length : Int) then caps.getD i.toNat (-1) else -1

/-- Match.resolve: resolve a by-name or by-index key to the begin/end pair,
-1 for anything unresolved. -/
def Match.resolve (m : Match) (k : Int ⊕ JSString) : Int × Int :=
  let i : Int :=
    match k with
    | .inr name => ((assocGet m.names name).map (Nat.cast)).getD (-1)
    | .inl i => i
  (capRead m.caps (i * 2), capRead m.caps (i * 2 + 1))

/-- Match.get: the captured slice, or undefined (none). -/
def Match.get (m : Match) (k : Int ⊕ JSString) : Option JSString :=
  let r := m.resolve k
  if r.1 < 0 ∨ r.2 < 0 then none
  else some (jsSlice m.input r.1 r.2)

/-- Match.length: the number of captures including capture 0. -/
def Match.length (m : Match) : Nat := m.caps.length / 2

/-! ## engine/compiler.ts -/

/-- The compile direction (forward, or backward inside look-behind). -/
inductive Dir where
  | forward
  | backward
deriving DecidableEq, Repr

/-- ASCII digit set (char-class/ascii.ts). -/
def digit : CharSet := (⟨[]⟩ : CharSet).add 0x30 (0x39 + 1)

/-- Inverted ASCII digit set. -/
def invertDigit : CharSet := digit.invert

/-- Inverted ASCII word set. -/
def invertWord : CharSet := word.invert

/-- The external data of char-class/ascii.ts and char-class/unicode.ts: the
Space_Separator category array, the extra word characters of the unicode
ignore-case word set, and the Unicode property loaders. -/
structure CompilerData where
  spaceSep : List Nat
  extraWordChars : List Nat
  loadProperty : JSString → Option CharSet
  loadPropertyValue : JSString → JSString → Option CharSet

/-- The space set: Space_Separator plus the ASCII white space and BOM
additions of char-class/ascii.ts. -/
def space (CD : CompilerData) : CharSet :=
  (((⟨CD.spaceSep⟩ : CharSet).add 0x09 (0x0d + 1)).add 0xa0 (0xa0 + 1)).add
    0xfeff (0xfeff + 1)

/-- Inverted space set. -/
def invertSpace (CD : CompilerData) : CharSet := (space CD).invert

/-- The Unicode ignore-case word set: the ASCII word set plus the extra
word characters. -/
def unicodeWordSet (CD : CompilerData) : CharSet :=
  CD.extraWordChars.foldl (fun s c => s.add c (c + 1)) word

/-- Inverted Unicode ignore-case word set. -/
def invertUnicodeWordSet (CD : CompilerData) : CharSet := (unicodeWordSet CD).invert

/-- The per-pattern inputs of the compiler. -/
structure CCtx where
  ignoreCase : Bool
  unicode : Bool
  captureParens : Nat
  names : List (JSString × Nat)
  CD : CompilerData
  D : UnicodeData

/-- The mutable compiler state: the advance analysis flag and the running
capture index (starting from 1). -/
structure CSt where
  advance : Bool
  captureParensIndex : Nat
deriving Repr

/-- escapeClassToSet: the character set of an escape class. -/
def escapeClassToSet (ctx : CCtx) (e : EscData) : Except PErr CharSet :=
  match e.kind with
  | .digit => .ok (if e.invert then invertDigit else digit)
  | .word =>
    if ctx.unicode ∧ ctx.ignoreCase then
      .ok (if e.invert then invertUnicodeWordSet ctx.CD else unicodeWordSet ctx.CD)
    else .ok (if e.invert then invertWord else word)
  | .space => .ok (if e.invert then invertSpace ctx.CD else space ctx.CD)
  | .unicode_property p =>
    match (ctx.CD.loadPropertyValue generalCategoryStr p).orElse
        (fun _ => ctx.CD.loadProperty p) with
    | none => .error (.syn "invalid Unicode property")
    | some set => .ok (if e.invert then set.invert else set)
  | .unicode_property_value p v =>
    match ctx.CD.loadPropertyValue p v with
    | none => .error (.syn "invalid Unicode property value")
    | some set => .ok (if e.invert then set.invert else set)
where
  /-- The string General_Category. -/
  generalCategoryStr : JSString :=
    [0x47, 0x65, 0x6e, 0x65, 0x72, 0x61, 0x6c, 0x5f, 0x43, 0x61, 0x74, 0x65,
     0x67, 0x6f, 0x72, 0x79]

/-- The class set accumulated from the items of a Class node. -/
def classItemsToSet (ctx : CCtx) : List ClassItem → CharSet → Except PErr CharSet
  | [], set => .ok set
  | .chr c :: rest, set => classItemsToSet ctx rest (set.add c.value (c.value + 1))
  | .esc e :: rest, set =>
    match escapeClassToSet ctx e with
    | .error er => .error er
    | .ok s0 => classItemsToSet ctx rest (set.addCharSet s0)
  | .rng b e _ :: rest, set => classItemsToSet ctx rest (set.add b.value (e.value + 1))

/-- insertEmptyCheck: bracket a loop body with push_pos / empty_check
unless the advance analysis proved the body consumes input. -/
def insertEmptyCheck (advance : Bool) (codes0 : List OpCode) : List OpCode :=
  if advance then codes0 else [.push_pos] ++ codes0 ++ [.empty_check]

/-- insertCapReset: reset the captures of the loop body when it has any. -/
def insertCapReset (f t : Nat) (codes0 : List OpCode) : List OpCode :=
  if f = t then codes0 else [.cap_reset f t] ++ codes0

/-- insertBack: wrap a consuming op-code with back op-codes when compiling
backward. -/
def insertBack (dir : Dir) (codes : List OpCode) : List OpCode :=
  match dir with
  | .forward => codes
  | .backward => [.back] ++ codes ++ [.back]

/-- The reduceRight of compileDisjunction: fork into each alternative and
jump over the rest. -/
def disjReduce : List (List OpCode) → List OpCode
  | [] => []
  | [c] => c
  | c :: rest =>
    let codes := disjReduce rest
    [.fork_cont ((c.length : Int) + 1)] ++ c ++ [.jump (codes.length : Int)] ++ codes

/-- The body of compileLookAround, after its child is compiled. -/
def lookAroundCodes (negative : Bool) (codes0 : List OpCode) : List OpCode :=
  if negative then
    [.push_pos, .push_proc, .fork_cont ((codes0.length : Int) + 2)] ++ codes0 ++
      [.rewind_proc, .fail, .pop, .restore_pos]
  else [.push_pos, .push_proc] ++ codes0 ++ [.rewind_proc, .restore_pos]

/-- The entry points of the mutually recursive compiling routines, as the
dispatch argument of the single worker compileRun.  The direction travels
in the call because the look-around cases restart it. -/
inductive CCall where
  | node (dir : Dir) (n : Node)
  | disjList (dir : Dir) (l : List Node) (adv : Bool)
  | seqList (dir : Dir) (l : List Node) (adv : Bool)

/-- The result of one compileRun call, matching the return type of the
source routine the call tag names. -/
inductive CRes where
  | codes (c : List OpCode)
  | disj (css : List (List OpCode)) (adv : Bool)
  | seq (c : List OpCode) (adv : Bool)

/-- compileRun: the mutually recursive block compileNode /
compileDisjunction's child loop / compileSequence's child loop of the
source, presented as one fueled worker dispatching on a CCall tag (see the
wrappers below).  The fuel only bounds the model's recursion depth; the
source recursion is structural on the AST.  A result constructor other
than the one the call tag determines never occurs. -/
def compileRun (ctx : CCtx) : Nat → CCall → CSt → Res CSt CRes
  | 0, _, _ => .error .fuel
  | f + 1, .node dir node, st =>
    match node, st with
    | .Disjunction children _, st =>
      if children.length = 0 then .error (.bug "invalid pattern")
      else
        match compileRun ctx f (.disjList dir children true) st with
        | .error e => .error e
        | .ok (.disj css adv) st' => .ok (.codes (disjReduce css)) { st' with advance := adv }
        | .ok _ _ => .error (.bug "invalid result")
    | .Sequence children _, st =>
      let children' := match dir with | .backward => children.reverse | .forward => children
      match compileRun ctx f (.seqList dir children' false) st with
      | .error e => .error e
      | .ok (.seq codes adv) st' => .ok (.codes codes) { st' with advance := adv }
      | .ok _ _ => .error (.bug "invalid result")
    | .Capture index child _, st =>
      let current := st.captureParensIndex
      match compileRun ctx f (.node dir child) { st with captureParensIndex := current + 1 } with
      | .error e => .error e
      | .ok (.codes codes0) st' =>
        if index ≠ current then .error (.bug "invalid pattern")
        else
          .ok (.codes ([match dir with
                | .backward => .cap_end index
                | .forward => .cap_begin index] ++ codes0 ++
               [match dir with
                | .backward => .cap_begin index
                | .forward => .cap_end index])) st'
      | .ok _ _ => .error (.bug "invalid result")
    | .NamedCapture name _ child _, st =>
      let current := st.captureParensIndex
      match compileRun ctx f (.node dir child) { st with captureParensIndex := current + 1 } with
      | .error e => .error e
      | .ok (.codes codes0) st' =>
        match assocGet ctx.names name with
        | none => .error (.bug "invalid pattern")
        | some index =>
          if index ≠ current then .error (.bug "invalid pattern")
          else .ok (.codes ([.cap_begin index] ++ codes0 ++ [.cap_end index])) st'
      | .ok _ _ => .error (.bug "invalid result")
    | .Group child _, st => compileRun ctx f (.node dir child) st
    | .Many ng child _, st =>
      let fr := st.captureParensIndex
      match compileRun ctx f (.node dir child) st with
      | .error e => .error e
      | .ok (.codes c0) st' =>
        let codes0 := insertEmptyCheck st'.advance c0
        let codes1 := insertCapReset fr st'.captureParensIndex codes0
        .ok (.codes ([if ng then .fork_next ((codes1.length : Int) + 1)
              else .fork_cont ((codes1.length : Int) + 1)] ++ codes1 ++
             [.jump (-1 - (codes1.length : Int) - 1)]))
          { st' with advance := false }
      | .ok _ _ => .error (.bug "invalid result")
    | .Some ng child _, st =>
      let fr := st.captureParensIndex
      match compileRun ctx f (.node dir child) st with
      | .error e => .error e
      | .ok (.codes codes0) st' =>
        let codes1 := insertCapReset fr st'.captureParensIndex
          (insertEmptyCheck st'.advance codes0)
        .ok (.codes (codes0 ++
             [if ng then .fork_next ((codes1.length : Int) + 1)
              else .fork_cont ((codes1.length : Int) + 1)] ++ codes1 ++
             [.jump (-1 - (codes1.length : Int) - 1)])) st'
      | .ok _ _ => .error (.bug "invalid result")
    | .Optional ng child _, st =>
      match compileRun ctx f (.node dir child) st with
      | .error e => .error e
      | .ok (.codes codes0) st' =>
        .ok (.codes ([if ng then .fork_next (codes0.length : Int)
              else .fork_cont (codes0.length : Int)] ++ codes0))
          { st' with advance := false }
      | .ok _ _ => .error (.bug "invalid result")
    | .Repeat min nmax ng child _, st =>
      let fr := st.captureParensIndex
      match compileRun ctx f (.node dir child) st with
      | .error e => .error e
      | .ok (.codes codes0) st' =>
        let p :=
          if min = 1 then (codes0, st')
          else if 1 < min then
            let codes1 := insertCapReset fr st'.captureParensIndex codes0
            ([OpCode.push (min : Int)] ++ codes1 ++
             [.dec, .loop (-1 - (codes1.length : Int) - 1), .pop], st')
          else (([] : List OpCode), { st' with advance := false })
        let headCodes := p.1
        let st'' := p.2
        let max := nmax.getD (.num min)
        match max with
        | .inf =>
          let codes1 := insertCapReset fr st''.captureParensIndex
            (insertEmptyCheck st''.advance codes0)
          .ok (.codes (headCodes ++
               [if ng then .fork_next ((codes1.length : Int) + 1)
                else .fork_cont ((codes1.length : Int) + 1)] ++ codes1 ++
               [.jump (-1 - (codes1.length : Int) - 1)])) st''
        | .num m =>
          if min < m then
            let remain := m - min
            let codes1 := insertCapReset fr st''.captureParensIndex
              (insertEmptyCheck st''.advance codes0)
            if remain = 1 then
              .ok (.codes (headCodes ++
                   [if ng then .fork_next (codes1.length : Int)
                    else .fork_cont (codes1.length : Int)] ++ codes1)) st''
            else
              .ok (.codes (headCodes ++
                   [OpCode.push ((remain : Int) + 1),
                    if ng then .fork_next ((codes0.length : Int) + 4)
                    else .fork_cont ((codes0.length : Int) + 4)] ++ codes1 ++
                   [.dec, .loop (-1 - (codes0.length : Int) - 2), .fail, .pop])) st''
          else .ok (.codes headCodes) st''
      | .ok _ _ => .error (.bug "invalid result")
    | .WordBoundary invert _, st =>
      .ok (.codes [if invert then .word_boundary_not else .word_boundary])
        { st with advance := false }
    | .LineBegin _, st => .ok (.codes [.line_begin]) { st with advance := false }
    | .LineEnd _, st => .ok (.codes [.line_end]) { st with advance := false }
    | .LookAhead negative child _, st =>
      match compileRun ctx f (.node .forward child) st with
      | .error e => .error e
      | .ok (.codes codes0) st' =>
        .ok (.codes (lookAroundCodes negative codes0)) { st' with advance := false }
      | .ok _ _ => .error (.bug "invalid result")
    | .LookBehind negative child _, st =>
      match compileRun ctx f (.node .backward child) st with
      | .error e => .error e
      | .ok (.codes codes0) st' =>
        .ok (.codes (lookAroundCodes negative codes0)) { st' with advance := false }
      | .ok _ _ => .error (.bug "invalid result")
    | .Char c, st =>
      let value : Int :=
        if ctx.ignoreCase then canonicalize ctx.D c.value ctx.unicode else c.value
      .ok (.codes (insertBack dir [.char value])) { st with advance := true }
    | .EscapeClass e, st =>
      match escapeClassToSet ctx e with
      | .error er => .error er
      | .ok set => .ok (.codes (insertBack dir [.«class» set])) { st with advance := true }
    | .Class invert children _, st =>
      match classItemsToSet ctx children ⟨[]⟩ with
      | .error er => .error er
      | .ok set =>
        .ok (.codes (insertBack dir [if invert then .class_not set else .«class» set]))
          { st with advance := true }
    | .Dot _, st => .ok (.codes (insertBack dir [.any])) { st with advance := true }
    | .BackRef index _, st =>
      if index < 1 ∨ ctx.captureParens < index then
        .error (.bug "invalid back reference")
      else
        .ok (.codes [match dir with | .backward => .ref_back index | .forward => .ref index])
          { st with advance := false }
    | .NamedBackRef name _ _, st =>
      match assocGet ctx.names name with
      | none => .error (.bug "invalid named back reference")
      | some index =>
        if index < 1 ∨ ctx.captureParens < index then
          .error (.bug "invalid named back reference")
        else
          .ok (.codes [match dir with | .backward => .ref_back index | .forward => .ref index])
            { st with advance := false }
  | _ + 1, .disjList _ [] adv, st => .ok (.disj [] adv) st
  | f + 1, .disjList dir (n :: rest) adv, st =>
    match compileRun ctx f (.node dir n) st with
    | .error e => .error e
    | .ok (.codes codes) st' =>
      match compileRun ctx f (.disjList dir rest (adv && st'.advance)) st' with
      | .error e => .error e
      | .ok (.disj css a) st'' => .ok (.disj (codes :: css) a) st''
      | .ok _ _ => .error (.bug "invalid result")
    | .ok _ _ => .error (.bug "invalid result")
  | _ + 1, .seqList _ [] adv, st => .ok (.seq [] adv) st
  | f + 1, .seqList dir (n :: rest) adv, st =>
    match compileRun ctx f (.node dir n) st with
    | .error e => .error e
    | .ok (.codes codes) st' =>
      match compileRun ctx f (.seqList dir rest (adv || st'.advance)) st' with
      | .error e => .error e
      | .ok (.seq codes1 a) st'' => .ok (.seq (codes ++ codes1) a) st''
      | .ok _ _ => .error (.bug "invalid result")
    | .ok _ _ => .error (.bug "invalid result")

/-- compileNode: lower one AST node to op-codes, threading the advance flag
and running capture index. -/
def compileNode (ctx : CCtx) (dir : Dir) (fuel : Nat) (node : Node) (st : CSt) :
    Res CSt (List OpCode) :=
  match compileRun ctx fuel (.node dir node) st with
  | .error e => .error e
  | .ok (.codes c) st' => .ok c st'
  | .ok _ _ => .error (.bug "invalid result")

/-- The child loop of compileDisjunction, collecting the compiled children
and conjoining their advance flags. -/
def compileDisjList (ctx : CCtx) (dir : Dir) (fuel : Nat) (l : List Node)
    (st : CSt) (adv : Bool) : Res CSt (List (List OpCode) × Bool)  :=
  match compileRun ctx fuel (.disjList dir l adv) st with
  | .error e => .error e
  | .ok (.disj css a) st' => .ok (css, a) st'
  | .ok _ _ => .error (.bug "invalid result")

/-- The child loop of compileSequence, concatenating the compiled children
and disjoining their advance flags. -/
def compileSeqList (ctx : CCtx) (dir : Dir) (fuel : Nat) (l : List Node)
    (st : CSt) (adv : Bool) : Res CSt (List OpCode × Bool) :=
  match compileRun ctx fuel (.seqList dir l adv) st with
  | .error e => .error e
  | .ok (.seq c a) st' => .ok (c, a) st'
  | .ok _ _ => .error (.bug "invalid result")

/-- Compiler.compile: wrap the compiled child in the capture 0 brackets and
the match op-code. -/
def Compiler.compile (CD : CompilerData) (D : UnicodeData) (p : Pattern)
    (fuel : Nat) : Except PErr Program :=
  let ctx : CCtx :=
    ⟨p.flagSet.ignoreCase, p.flagSet.unicode, p.captureParens, p.names, CD, D⟩
  match compileNode ctx .forward fuel p.child ⟨false, 1⟩ with
  | .error e => .error e
  | .ok codes0 _ =>
    .ok ⟨p.flagSet, p.captureParens, p.names,
      [.cap_begin 0] ++ codes0 ++ [.cap_end 0, .«match»]⟩

/-! ## Sequences of CharSet operations (for the char-set invariant) -/

/-- One public mutating CharSet operation. -/
inductive CharSetOp where
  | add (b e : Nat)
  | addSet (t : CharSet)
  | inv
deriving Repr, DecidableEq

/-- Apply one operation. -/
def applyOp (s : CharSet) : CharSetOp → CharSet
  | .add b e => s.add b e
  | .addSet t => s.addCharSet t
  | .inv => s.invert

/-- Apply a sequence of operations in order. -/
def applyOps (s : CharSet) (ops : List CharSetOp) : CharSet :=
  ops.foldl applyOp s

/-- The claimed char-set invariant: the flat array has even length, every
range has begin strictly below end, and every range's end is strictly below
the following range's begin (sorted, disjoint, maximally coalesced). -/
def CharSet.Invariant (d : List Nat) : Prop :=
  d.length % 2 = 0 ∧
  (∀ k ∈ List.range (d.length / 2), CharSet.at' d (2 * k) < CharSet.at' d (2 * k + 1)) ∧
  (∀ k ∈ List.range (d.length / 2 - 1),
    CharSet.at' d (2 * k + 1) < CharSet.at' d (2 * k + 2))

instance (d : List Nat) : Decidable (CharSet.Invariant d) := by
  unfold CharSet.Invariant
  infer_instance

/-- The precondition the claim puts on an operation: an added range
satisfies 0 ≤ begin < end ≤ 0x110000, an added set is a well-formed
CharSet, and invert is unrestricted. -/
def GoodOp : CharSetOp → Prop
  | .add b e => b < e ∧ e ≤ MAX_CODE_POINT
  | .addSet t => CharSet.Invariant t.data
  | .inv => True

instance : DecidablePred GoodOp := fun op => by
  cases op <;> simp only [GoodOp] <;> infer_instance

/-- Every even-odd position pair of the flat array is an increasing pair
(the shape in which addCharSet consumes the other set's array). -/
def PairsLt : List Nat → Prop
  | b :: e :: rest => b < e ∧ PairsLt rest
  | _ => True

/-! ## Observers and concrete instantiations used by the theorems -/

/-- The inner thread loop instrumented to record the greatest stackSize of
any thread at any step (none on fuel exhaustion or a pc fault). -/
def runProcsMax (E : ExecEnv) (P : Program) (input : JSString) :
    Nat → List Proc → Int → Option Int
  | _, [], m => some m
  | 0, _ :: _, _ => none
  | Nat.succ fuel, proc :: rest, m =>
    let m' := (proc :: rest).foldl (fun acc p => max acc p.stackSize) m
    match step E P input proc rest with
    | .matched _ => some m'
    | .oob => none
    | .cont ps => runProcsMax E P input fuel ps m'

/-- Trivial ID_Start / ID_Continue data.  Modelled from the spec: the
Unicode identifier tables are an external dataset; the patterns evaluated
against this instantiation contain no capture names, so the tables are
never consulted. -/
def emptyParserData : ParserData := ⟨⟨[]⟩, ⟨[]⟩⟩

/-- Trivial compiler data.  Modelled from the spec: the Unicode category
and property tables are an external dataset; the patterns evaluated
against this instantiation contain no space or property escapes. -/
def emptyCompilerData : CompilerData := ⟨[], [], fun _ => none, fun _ _ => none⟩

/-- The six recognized flag characters g, i, m, s, u, y as code-point
strings. -/
def allowedFlagChars : List JSString :=
  [[0x67], [0x69], [0x6d], [0x73], [0x75], [0x79]]

/-- Whether the flag named by the character is already set. -/
def flagOn (fs : FlagSet) (c : JSString) : Bool :=
  if c = [0x67] then fs.global
  else if c = [0x69] then fs.ignoreCase
  else if c = [0x6d] then fs.multiline
  else if c = [0x73] then fs.dotAll
  else if c = [0x75] then fs.unicode
  else if c = [0x79] then fs.sticky
  else false

/-- The execution environment built from the kelvinData model. -/
def kelvinEnv : ExecEnv := ⟨kelvinData, ⟨[]⟩⟩

/-- Parse and compile a concrete pattern against the modelled data (fuel
1000 is ample for the handful of short patterns the theorems evaluate). -/
def compiled (source flags : JSString) : Option Program :=
  match Parser.parse source flags true emptyParserData 1000 with
  | .error _ => none
  | .ok p =>
    match Compiler.compile emptyCompilerData kelvinData p 1000 with
    | .error _ => none
    | .ok P => some P

/-- Simple case folding never moves a code point across the astral-plane
boundary (a property of the real Unicode data, used to relate the two
sides of a canonicalized comparison). -/
def PlanePreserving (D : UnicodeData) : Prop :=
  ∀ c d : Nat, D.foldMap c = some d → (c < 0x10000 ↔ d < 0x10000)

/-- A lead surrogate code unit. -/
def IsLead (u : Nat) : Prop := 0xd800 ≤ u ∧ u ≤ 0xdbff

instance : DecidablePred IsLead := fun u =>
  inferInstanceAs (Decidable (0xd800 ≤ u ∧ u ≤ 0xdbff))

/-- A trail surrogate code unit. -/
def IsTrail (u : Nat) : Prop := 0xdc00 ≤ u ∧ u ≤ 0xdfff

instance : DecidablePred IsTrail := fun u =>
  inferInstanceAs (Decidable (0xdc00 ≤ u ∧ u ≤ 0xdfff))

/-- A string whose surrogates all come in lead-trail pairs: every lead is
directly followed by a trail and every trail directly preceded by a lead
(true of every well-formed UTF-16 string). -/
def SurrogatesPaired (s : JSString) : Prop :=
  (∀ k < s.length, IsLead (s.getD k 0) →
    k + 1 < s.length ∧ IsTrail (s.getD (k + 1) 0)) ∧
  (∀ k < s.length, IsTrail (s.getD k 0) → 0 < k ∧ IsLead (s.getD (k - 1) 0))

instance (s : JSString) : Decidable (SurrogatesPaired s) := by
  unfold SurrogatesPaired
  infer_instance

/-- Position i of s does not point at the trail unit of a surrogate pair
(in a SurrogatesPaired string a trail unit is always part of a pair). -/
def NotMidPair (s : JSString) (i : Int) : Prop :=
  ∀ _ : i.toNat < s.length, ¬ IsTrail (s.getD i.toNat 0)

/-- The specification of preprocessFlagsGo at one argument pair: it
succeeds exactly on a duplicate-free list of allowed flag characters none
of whose flags is set yet, and then the result switches on exactly the
flags seen or already set. -/
def GoSpec (cs : List JSString) (fs : FlagSet) : Prop :=
  ((∃ fs', preprocessFlagsGo cs fs = Except.ok fs') ↔
    (∀ c ∈ cs, c ∈ allowedFlagChars) ∧ cs.Nodup ∧ ∀ c ∈ cs, flagOn fs c = false) ∧
  (∀ fs', preprocessFlagsGo cs fs = Except.ok fs' →
    ∀ c : JSString, flagOn fs' c = true ↔ (flagOn fs c = true ∨ c ∈ cs))

/-! # Theorems -/

/-- C1: the claim says every Capture index equals the pre-order occurrence
index of its opening paren, so in ((a)) the outer capture gets 1 and the
inner 2.  The parser draws the index of an unnamed capture only after
parsing its child, so ((a)) yields the outer capture index 2 and the inner
index 1 (post-order); the compiler, which numbers captures pre-order, then
rejects the parser's own output with its internal BUG: invalid pattern
error.  The theorem evaluates both facts on the failing input ((a)). -/
theorem C1_capture_index_postorder :
    ∀ (PD : ParserData) (CD : CompilerData) (D : UnicodeData),
    Parser.parse [0x28, 0x28, 0x61, 0x29, 0x29] [] true PD 1000 =
      .ok ⟨emptyFlagSet, 2, [],
        .Capture 2 (.Capture 1 (.Char ⟨0x61, [0x61], (2, 3)⟩) (1, 4)) (0, 5),
        (0, 5)⟩ ∧
    Compiler.compile CD D
      ⟨emptyFlagSet, 2, [],
        .Capture 2 (.Capture 1 (.Char ⟨0x61, [0x61], (2, 3)⟩) (1, 4)) (0, 5),
        (0, 5)⟩ 1000 =
      .error (.bug "invalid pattern") := by
  intro PD CD D
  exact ⟨rfl, rfl⟩

/-- C2: executing the any op-code advances the thread's pos by the size of
the current code point exactly when the dotAll flag is set or the current
code point is not a line terminator; otherwise, including at the end of
the input where the code point is the -1 marker, the thread backtracks
(is popped). -/
theorem C2_any_opcode (E : ExecEnv) (P : Program) (input : JSString)
    (proc : Proc) (rest : List Proc) (h : getCode P proc.pc = some .any) :
    step E P input proc rest =
      (let c := index input proc.pos P.flagSet.unicode
       if 0 ≤ c ∧ (P.flagSet.dotAll ∨ ¬ isLineTerminator c) then
         .cont ({ proc with pc := proc.pc + 1, pos := proc.pos + size c } :: rest)
       else .cont rest) := by
  simp only [step, h]

/-- Witness for C2 at a concrete one-op program and input. -/
theorem C2_any_opcode_witness :
    step kelvinEnv ⟨emptyFlagSet, 0, [], [.any]⟩ [0x61] ⟨0, 0, [], 0, []⟩ [] =
      .cont [⟨1, 1, [], 0, []⟩] := by
  rw [C2_any_opcode kelvinEnv ⟨emptyFlagSet, 0, [], [.any]⟩ [0x61] ⟨0, 0, [], 0, []⟩ []
    rfl]
  decide

/-- C4: with the sticky flag, exec runs the thread loop only from the
start position: it returns that single attempt's match, null when the
attempt exhausts its threads, and never tries a later position; a start
position beyond the input returns null without an attempt. -/
theorem C4_sticky_single_attempt (E : ExecEnv) (P : Program) (input : JSString)
    (fuel : Nat) (pos : Int) (hs : P.flagSet.sticky = true) :
    (pos ≤ (input.length : Int) →
      Program.exec E P input fuel pos =
        match runProcs E P input fuel [createProc P pos] with
        | .matched m => .ret (some m)
        | .timeout => .timeout
        | .crash => .crash
        | .exhausted => .ret none) ∧
    ((input.length : Int) < pos → Program.exec E P input fuel pos = .ret none) := by
  constructor
  · intro hle
    unfold Program.exec
    rw [execFrom, if_pos hle]
    cases hr : runProcs E P input fuel [createProc P pos] <;> simp [hs]
  · intro hgt
    unfold Program.exec
    rw [execFrom, if_neg (by omega)]

/-- Witness for C4: a sticky program for the pattern a on the input ba
finds no match at position 0 although one exists at position 1. -/
theorem C4_sticky_single_attempt_witness :
    Program.exec kelvinEnv
      ⟨⟨false, false, false, false, false, true⟩, 0, [],
        [.cap_begin 0, .char 0x61, .cap_end 0, .«match»]⟩ [0x62, 0x61] 100 0 =
      .ret none := by
  rw [(C4_sticky_single_attempt kelvinEnv
    ⟨⟨false, false, false, false, false, true⟩, 0, [],
      [.cap_begin 0, .char 0x61, .cap_end 0, .«match»]⟩ [0x62, 0x61] 100 0 rfl).1
    (by decide)]
  decide

/-- C6: the claim says the linear-walk bound is at least every thread's
stackSize at every step.  On the compiled program of (?!a)(?=(?=b)) the
walk computes 3, because a negative look-ahead leaves the running value one
lower than the surviving thread's actual depth, yet on the input b a
thread reaches stackSize 4 inside the nested look-ahead; execution still
completes (the stack write appends), so only the bound is wrong. -/
theorem C6_stack_bound_exceeded :
    (compiled [0x28, 0x3f, 0x21, 0x61, 0x29, 0x28, 0x3f, 0x3d, 0x28, 0x3f, 0x3d,
        0x62, 0x29, 0x29] []).map
        (fun P => (calculateMaxStackSize P.codes,
          runProcsMax kelvinEnv P [0x62] 1000 [createProc P 0] 0,
          Program.exec kelvinEnv P [0x62] 1000 0)) =
      some (3, some 4, .ret (some ⟨[0x62], [0, 0], []⟩)) ∧ (3 : Int) < 4 := by
  exact ⟨rfl, by decide⟩

/-- C7: the non-unicode ignore-case canonicalization follows the spec's
legacy rule for every code unit and any case data; with the modelled
Unicode data, KELVIN SIGN is its own canonicalization, so the ignore-case
pattern for U+212A does not match K, while under unicode folding it
matches k. -/
theorem C7_legacy_canonicalize :
    (∀ (D : UnicodeData) (c : Nat), c < 0x10000 → D.toUpper c ≠ [] →
      canonicalize D c false = specLegacyCanonicalize D c) ∧
    canonicalize kelvinData 0x212a false = 0x212a ∧
    (compiled [0x5c, 0x75, 0x32, 0x31, 0x32, 0x41] [0x69]).map
        (fun P => Program.exec kelvinEnv P [0x4b] 1000 0) = some (.ret none) ∧
    (compiled [0x5c, 0x75, 0x32, 0x31, 0x32, 0x41] [0x69, 0x75]).map
        (fun P => Program.exec kelvinEnv P [0x6b] 1000 0) =
      some (.ret (some ⟨[0x6b], [0, 1], []⟩)) := by
  refine ⟨?_, rfl, rfl, rfl⟩
  intro D c hc hne
  have h1 : (((c : Int)) % 0x10000).toNat = c := by omega
  simp only [canonicalize, specLegacyCanonicalize, Bool.false_eq_true, if_false, h1]
  match hu : D.toUpper c with
  | [] => exact absurd hu hne
  | [d] =>
    rw [if_neg (show ¬ 2 ≤ [d].length by simp),
      if_neg (show ¬ [d].length ≠ 1 by simp)]
  | d :: d2 :: tl =>
    rw [if_pos (by simp only [List.length_cons]; omega),
      if_pos (by simp only [List.length_cons]; omega)]

/-- Witness for C7: the legacy rule instantiated at k (U+006B), whose
uppercase is K. -/
theorem C7_legacy_canonicalize_witness :
    canonicalize kelvinData 0x6b false = specLegacyCanonicalize kelvinData 0x6b :=
  C7_legacy_canonicalize.1 kelvinData 0x6b (by decide) (by decide)

/-- C10: Match.get never throws: an unknown group name, an index outside
[0, length) and an unset capture offset all give undefined, and otherwise
the input slice between the capture's offsets is returned; a known group
name behaves as its index. -/
theorem C10_match_get (m : Match) (heven : m.caps.length % 2 = 0)
    (hcaps : ∀ v ∈ m.caps, -1 ≤ v) :
    (∀ name : JSString, assocGet m.names name = none → m.get (.inr name) = none) ∧
    (∀ (name : JSString) (k : Nat), assocGet m.names name = some k →
      m.get (.inr name) = m.get (.inl (k : Int))) ∧
    (∀ k : Int, k < 0 ∨ (m.length : Int) ≤ k → m.get (.inl k) = none) ∧
    (∀ k : Nat, k < m.length →
      (m.caps.getD (2 * k) (-1) = -1 ∨ m.caps.getD (2 * k + 1) (-1) = -1 →
        m.get (.inl (k : Int)) = none) ∧
      (m.caps.getD (2 * k) (-1) ≠ -1 → m.caps.getD (2 * k + 1) (-1) ≠ -1 →
        m.get (.inl (k : Int)) =
          some (jsSlice m.input (m.caps.getD (2 * k) (-1))
            (m.caps.getD (2 * k + 1) (-1))))) := by
  refine ⟨?_, ?_, ?_, ?_⟩
  · intro name hname
    simp [Match.get, Match.resolve, hname, capRead]
  · intro name k hname
    simp [Match.get, Match.resolve, hname]
  · intro k hk
    have h1 : capRead m.caps (k * 2) = -1 := by
      unfold capRead
      rw [if_neg]
      unfold Match.length at hk
      push_neg
      intro h0
      omega
    simp [Match.get, Match.resolve, h1]
  · intro k hk
    unfold Match.length at hk
    have hlt : 2 * k + 1 < m.caps.length := by omega
    have hlt0 : 2 * k < m.caps.length := by omega
    have e0 : capRead m.caps ((k : Int) * 2) = m.caps.getD (2 * k) (-1) := by
      unfold capRead
      rw [if_pos ⟨by omega, by omega⟩]
      congr 1
      omega
    have e1 : capRead m.caps ((k : Int) * 2 + 1) = m.caps.getD (2 * k + 1) (-1) := by
      unfold capRead
      rw [if_pos ⟨by omega, by omega⟩]
      congr 1
      omega
    have mem0 : m.caps.getD (2 * k) (-1) ∈ m.caps := by
      rw [List.getD_eq_getElem _ _ hlt0]
      exact List.getElem_mem hlt0
    have mem1 : m.caps.getD (2 * k + 1) (-1) ∈ m.caps := by
      rw [List.getD_eq_getElem _ _ hlt]
      exact List.getElem_mem hlt
    constructor
    · intro hun
      rcases hun with hun | hun
      · simp only [Match.get, Match.resolve, e0, e1]
        rw [if_pos (Or.inl (by omega))]
      · simp only [Match.get, Match.resolve, e0, e1]
        rw [if_pos (Or.inr (by omega))]
    · intro hs0 hs1
      have g0 : 0 ≤ m.caps.getD (2 * k) (-1) := by
        have := hcaps _ mem0
        omega
      have g1 : 0 ≤ m.caps.getD (2 * k + 1) (-1) := by
        have := hcaps _ mem1
        omega
      simp only [Match.get, Match.resolve, e0, e1]
      rw [if_neg (by omega)]

/-! ## Helper lemmas on string indexing (for C8) -/

/-- charCodeAt in range returns the unit. -/
theorem charCodeAt_eq (s : JSString) (i : Int) (h0 : 0 ≤ i) (hl : i.toNat < s.length) :
    charCodeAt s i = some (s.getD i.toNat 0) := by
  unfold charCodeAt
  rw [dif_pos ⟨h0, hl⟩, List.getD_eq_getElem s 0 hl, List.get_eq_getElem]

/-- charCodeAt out of range is none. -/
theorem charCodeAt_none (s : JSString) (i : Int)
    (h : i < 0 ∨ (s.length : Int) ≤ i) : charCodeAt s i = none := by
  unfold charCodeAt
  rw [dif_neg]
  rintro ⟨h0, h1⟩
  omega

/-- A charCodeAt value is a unit of the string. -/
theorem charCodeAt_mem (s : JSString) (i : Int) (v : Nat)
    (h : charCodeAt s i = some v) : v ∈ s := by
  unfold charCodeAt at h
  by_cases hc : 0 ≤ i ∧ i.toNat < s.length
  · rw [dif_pos hc] at h
    cases h
    exact List.get_mem s _ _
  · rw [dif_neg hc] at h
    exact Option.noConfusion h

/-- An in-range unit of a ValidUnits string is below 0x10000. -/
theorem valid_getD (s : JSString) (h : ValidUnits s) (k : Nat) (hk : k < s.length) :
    s.getD k 0 < 0x10000 := by
  rw [List.getD_eq_getElem s 0 hk]
  exact h _ (List.getElem_mem hk)

/-- The units of a slice come from the string. -/
theorem valid_jsSlice (inp : JSString) (hin : ValidUnits inp) (b e : Int) :
    ValidUnits (jsSlice inp b e) := by
  intro x hx
  exact hin x (List.mem_of_mem_take (List.mem_of_mem_drop hx))

/-- size of a BMP code point (or the -1 marker). -/
theorem size_eq_one (c : Int) (h : c < 0x10000) : size c = 1 := if_neg (by omega)

/-- size is at least one. -/
theorem size_pos (c : Int) : 1 ≤ size c := by
  unfold size
  split <;> omega

/-- codePointAt in range: some value, either the unit itself or an astral
code point whose trail unit is also in range. -/
theorem codePointAt_spec (s : JSString) (i : Int) (h0 : 0 ≤ i) (hl : i.toNat < s.length) :
    ∃ v, codePointAt s i = some v ∧
      (v = s.getD i.toNat 0 ∨ (0x10000 ≤ v ∧ i + 2 ≤ (s.length : Int))) := by
  unfold codePointAt
  rw [charCodeAt_eq s i h0 hl]
  dsimp only
  by_cases hld : 0xd800 ≤ s.getD i.toNat 0 ∧ s.getD i.toNat 0 ≤ 0xdbff
  · rw [if_pos hld]
    cases hc1 : charCodeAt s (i + 1) with
    | none => exact ⟨_, rfl, Or.inl rfl⟩
    | some d =>
      dsimp only
      by_cases htr : 0xdc00 ≤ d ∧ d ≤ 0xdfff
      · rw [if_pos htr]
        refine ⟨_, rfl, Or.inr ⟨by omega, ?_⟩⟩
        by_contra hcon
        rw [charCodeAt_none s (i + 1) (by omega)] at hc1
        exact Option.noConfusion hc1
      · rw [if_neg htr]
        exact ⟨_, rfl, Or.inl rfl⟩
  · rw [if_neg hld]
    exact ⟨_, rfl, Or.inl rfl⟩

/-- index in non-unicode mode returns the unit. -/
theorem index_false_eq (s : JSString) (i : Int) (h0 : 0 ≤ i) (hl : i.toNat < s.length) :
    index s i false = (s.getD i.toNat 0 : Int) := by
  unfold index
  rw [if_neg (by simp), charCodeAt_eq s i h0 hl]
  rfl

/-- The size of a non-unicode index of a ValidUnits string is one. -/
theorem index_false_size (s : JSString) (hs : ValidUnits s) (i : Int) :
    size (index s i false) = 1 := by
  unfold index
  rw [if_neg (by simp)]
  cases hc : charCodeAt s i with
  | none => rfl
  | some v =>
    have hv : v < 0x10000 := hs v (charCodeAt_mem s i v hc)
    simp only [Option.map_some', Option.getD_some]
    exact size_eq_one _ (by exact_mod_cast hv)

/-- index in unicode mode, in range: nonnegative, and the position advances
by its size without passing the end of the string. -/
theorem index_true_spec (s : JSString) (hs : ValidUnits s) (i : Int)
    (h0 : 0 ≤ i) (hl : i.toNat < s.length) :
    0 ≤ index s i true ∧ i + size (index s i true) ≤ (s.length : Int) := by
  obtain ⟨v, hv, hcase⟩ := codePointAt_spec s i h0 hl
  unfold index
  rw [if_pos rfl, hv]
  simp only [Option.map_some', Option.getD_some]
  refine ⟨by omega, ?_⟩
  rcases hcase with h | h
  · have hered : v < 0x10000 := h ▸ valid_getD s hs i.toNat hl
    rw [size_eq_one _ (by exact_mod_cast hered)]
    omega
  · have h2 : size (v : Int) = 2 := if_pos (by exact_mod_cast h.1)
    rw [h2]
    exact h.2

/-- index in unicode mode at a non-lead unit returns the unit. -/
theorem index_true_unit (s : JSString) (i : Int) (h0 : 0 ≤ i) (hl : i.toNat < s.length)
    (hnl : ¬ IsLead (s.getD i.toNat 0)) :
    index s i true = (s.getD i.toNat 0 : Int) := by
  unfold index
  rw [if_pos rfl]
  unfold codePointAt
  rw [charCodeAt_eq s i h0 hl]
  dsimp only
  rw [if_neg (show ¬ (0xd800 ≤ s.getD i.toNat 0 ∧ s.getD i.toNat 0 ≤ 0xdbff) from hnl)]
  rfl

/-- index in unicode mode at a lead unit paired with a trail unit returns
the astral code point. -/
theorem index_true_astral (s : JSString) (i : Int) (h0 : 0 ≤ i) (hl : i.toNat < s.length)
    (hld : IsLead (s.getD i.toNat 0)) (h2 : (i + 1).toNat < s.length)
    (htr : IsTrail (s.getD (i + 1).toNat 0)) :
    index s i true =
      ((0x10000 + (s.getD i.toNat 0 - 0xd800) * 0x400 +
        (s.getD (i + 1).toNat 0 - 0xdc00) : Nat) : Int) := by
  unfold index
  rw [if_pos rfl]
  unfold codePointAt
  rw [charCodeAt_eq s i h0 hl]
  dsimp only
  rw [if_pos (show 0xd800 ≤ s.getD i.toNat 0 ∧ s.getD i.toNat 0 ≤ 0xdbff from hld),
    charCodeAt_eq s (i + 1) (by omega) h2]
  dsimp only
  rw [if_pos (show 0xdc00 ≤ s.getD (i + 1).toNat 0 ∧ s.getD (i + 1).toNat 0 ≤ 0xdfff
    from htr)]
  rfl

/-- canonicalize of a negative argument under unicode folding. -/
theorem canonicalize_true_neg (D : UnicodeData) (c : Int) (h : c < 0) :
    canonicalize D c true = c := by
  unfold canonicalize natLookup
  rw [if_pos rfl, if_neg (by omega)]
  rfl

/-- canonicalize under unicode folding preserves nonnegativity. -/
theorem canonicalize_true_nonneg (D : UnicodeData) (c : Int) (h0 : 0 ≤ c) :
    0 ≤ canonicalize D c true := by
  unfold canonicalize natLookup
  rw [if_pos rfl, if_pos h0]
  cases hf : D.foldMap c.toNat <;> simp [h0]

/-- With plane-preserving data, canonicalize under unicode folding keeps
the plane of a code point. -/
theorem canonicalize_plane (D : UnicodeData) (hpp : PlanePreserving D) (c : Int)
    (h0 : 0 ≤ c) : (canonicalize D c true < 0x10000 ↔ c < 0x10000) := by
  unfold canonicalize natLookup
  rw [if_pos rfl, if_pos h0]
  cases hf : D.foldMap c.toNat with
  | none => simp
  | some y =>
    have hy := hpp c.toNat y hf
    simp only [Option.map_some', Option.getD_some]
    constructor
    · intro h'
      have := hy.mpr (by omega)
      omega
    · intro h'
      have := hy.mp (by omega)
      omega

/-- When the canonicalized values of a comparison agree and the pattern
side is a real code point, the input side is one too and both sides have
the same size. -/
theorem size_eq_of_canon (D : UnicodeData) (hpp : PlanePreserving D) (ic : Bool)
    (c d : Int) (hd : 0 ≤ d)
    (heq : (if ic then canonicalize D c true else c) =
      (if ic then canonicalize D d true else d)) :
    0 ≤ c ∧ size c = size d := by
  cases ic with
  | false =>
    rw [if_neg (by simp), if_neg (by simp)] at heq
    exact ⟨heq ▸ hd, heq ▸ rfl⟩
  | true =>
    rw [if_pos rfl, if_pos rfl] at heq
    have hc0 : 0 ≤ c := by
      by_contra hneg
      push_neg at hneg
      have h1 : canonicalize D c true = c := canonicalize_true_neg D c hneg
      have h2 : 0 ≤ canonicalize D d true := canonicalize_true_nonneg D d hd
      omega
    refine ⟨hc0, ?_⟩
    have p1 := canonicalize_plane D hpp c hc0
    have p2 := canonicalize_plane D hpp d hd
    unfold size
    by_cases h1 : (0x10000 : Int) ≤ c
    · rw [if_pos h1, if_pos ?_]
      by_contra hcon
      push_neg at hcon
      have := p1.mp (by rw [heq]; exact p2.mpr (by omega))
      omega
    · rw [if_neg h1, if_neg ?_]
      intro hcon
      have := p2.mp (by rw [← heq]; exact p1.mpr (by omega))
      omega

/-- prevIndex in unicode mode at a pair boundary of a surrogate-paired
string: the value is a code point, and stepping back by its size lands on
a boundary at or after the start. -/
theorem prevIndex_true_spec (s : JSString) (hs : ValidUnits s) (hsp : SurrogatesPaired s)
    (i : Int) (h0 : 0 < i) (hl : i ≤ (s.length : Int)) (hb : NotMidPair s i) :
    0 ≤ prevIndex s i true ∧ 0 ≤ i - size (prevIndex s i true) ∧
      NotMidPair s (i - size (prevIndex s i true)) := by
  have hj : (i - 1).toNat < s.length := by omega
  have hj0 : 0 ≤ i - 1 := by omega
  by_cases htr : IsTrail (s.getD (i - 1).toNat 0)
  · obtain ⟨hk0, hlead⟩ := hsp.2 (i - 1).toNat hj htr
    have hj2 : (i - 2).toNat < s.length := by omega
    have hsub : (i - 1).toNat - 1 = (i - 2).toNat := by omega
    rw [hsub] at hlead
    have heq1 : ((i - 2) + 1).toNat = (i - 1).toNat := by omega
    have hcval : index s (i - 1) true = (s.getD (i - 1).toNat 0 : Int) := by
      apply index_true_unit s (i - 1) hj0 hj
      rintro ⟨hl1, hl2⟩
      obtain ⟨ht1, ht2⟩ := htr
      omega
    have hdval := index_true_astral s (i - 2) (by omega) hj2 hlead
      (by rw [heq1]; exact hj) (by rw [heq1]; exact htr)
    rw [heq1] at hdval
    obtain ⟨ht1, ht2⟩ := htr
    obtain ⟨hl1, hl2⟩ := hlead
    have ha1 : (0x10000 : Nat) ≤ 0x10000 + (s.getD (i - 2).toNat 0 - 0xd800) * 0x400 +
        (s.getD (i - 1).toNat 0 - 0xdc00) := by omega
    have ha2 : 0x10000 + (s.getD (i - 2).toNat 0 - 0xd800) * 0x400 +
        (s.getD (i - 1).toNat 0 - 0xdc00) ≤ (0x10ffff : Nat) := by omega
    unfold prevIndex
    rw [hcval]
    simp only [Bool.not_true, Bool.false_eq_true, if_false]
    rw [if_pos (show (0xdc00 : Int) ≤ (s.getD (i - 1).toNat 0 : Int) ∧
        (s.getD (i - 1).toNat 0 : Int) ≤ 0xdfff from
      ⟨by exact_mod_cast ht1, by exact_mod_cast ht2⟩)]
    rw [hdval]
    rw [if_pos (show (0x10000 : Int) ≤ _ ∧ _ ≤ (0x10ffff : Int) from
      ⟨by exact_mod_cast ha1, by exact_mod_cast ha2⟩)]
    have hsz : size ((0x10000 + (s.getD (i - 2).toNat 0 - 0xd800) * 0x400 +
        (s.getD (i - 1).toNat 0 - 0xdc00) : Nat) : Int) = 2 :=
      if_pos (by exact_mod_cast ha1)
    rw [hsz]
    refine ⟨Int.natCast_nonneg _, by omega, ?_⟩
    intro hlen htrc
    obtain ⟨hc1, hc2⟩ := htrc
    omega
  · by_cases hld : IsLead (s.getD (i - 1).toNat 0)
    · obtain ⟨hk1, htr1⟩ := hsp.1 (i - 1).toNat hj hld
      have heq2 : (i - 1).toNat + 1 = i.toNat := by omega
      rw [heq2] at hk1 htr1
      exact absurd htr1 (hb hk1)
    · have hcval : index s (i - 1) true = (s.getD (i - 1).toNat 0 : Int) :=
        index_true_unit s (i - 1) hj0 hj hld
      have hv : s.getD (i - 1).toNat 0 < 0x10000 := valid_getD s hs _ hj
      unfold prevIndex
      rw [hcval]
      simp only [Bool.not_true, Bool.false_eq_true, if_false]
      rw [if_neg (show ¬ ((0xdc00 : Int) ≤ (s.getD (i - 1).toNat 0 : Int) ∧
          (s.getD (i - 1).toNat 0 : Int) ≤ 0xdfff) from by
        rintro ⟨hc1, hc2⟩
        exact htr ⟨by exact_mod_cast hc1, by exact_mod_cast hc2⟩)]
      rw [size_eq_one _ (by exact_mod_cast hv)]
      refine ⟨Int.natCast_nonneg _, by omega, ?_⟩
      intro hlen htrc
      exact htr htrc

/-- Witness for C10 at a concrete Match record. -/
theorem C10_match_get_witness :
    Match.get ⟨[0x61, 0x62, 0x63], [0, 2, -1, 1], [([0x78], 1)]⟩ (.inl (0 : Int)) =
      some [0x61, 0x62] := by
  have h := C10_match_get ⟨[0x61, 0x62, 0x63], [0, 2, -1, 1], [([0x78], 1)]⟩
    (by decide) (by decide)
  have h2 := (h.2.2.2 0 (by decide)).2 (by decide) (by decide)
  rw [show ((0 : Nat) : Int) = (0 : Int) by rfl] at h2
  rw [h2]
  decide

/-- The model Unicode case data is plane-preserving. -/
theorem kelvinPlanePreserving : PlanePreserving kelvinData := by
  intro c d h
  have h' : (if c = 0x4b ∨ c = 0x212a then some 0x6b else (none : Option Nat)) =
      some d := h
  by_cases hc : c = 0x4b ∨ c = 0x212a
  · rw [if_pos hc] at h'
    cases h'
    rcases hc with rfl | rfl
    · constructor <;> intro _ <;> omega
    · constructor <;> intro _ <;> omega
  · rw [if_neg hc] at h'
    exact Option.noConfusion h'

/-- A successful forward back-reference comparison advances the position by
exactly the remaining length of the captured substring. -/
theorem refLoop_adv (D : UnicodeData) (u ic : Bool) (input s : JSString)
    (hin : ValidUnits input) (hs : ValidUnits s) (hpp : PlanePreserving D) :
    ∀ (fuel : Nat) (pos i : Int), 0 ≤ i → i ≤ (s.length : Int) →
      (s.length : Int) - i < (fuel : Int) →
      (refLoop D u ic input s fuel pos i).2 = false →
      (refLoop D u ic input s fuel pos i).1 = pos + ((s.length : Int) - i)
  | 0, pos, i => by
    intro h0 hl hf _
    exact absurd hf (by omega)
  | fuel + 1, pos, i => by
    intro h0 hl hf hfalse
    by_cases hlt : i < (s.length : Int)
    · simp only [refLoop, if_pos hlt] at hfalse ⊢
      set c := index input pos u with hc
      set d := index s i u with hd
      by_cases hne : (if ic then canonicalize D c u else c) ≠
          (if ic then canonicalize D d u else d)
      · rw [if_pos hne] at hfalse
        exact absurd hfalse (by simp)
      · rw [if_neg hne] at hfalse ⊢
        push_neg at hne
        have hdn : i.toNat < s.length := by omega
        have hsizes : size c = size d ∧ i + size d ≤ (s.length : Int) := by
          cases u with
          | false =>
            refine ⟨?_, ?_⟩
            · rw [hc, hd, index_false_size input hin pos, index_false_size s hs i]
            · rw [hd, index_false_eq s i h0 hdn,
                size_eq_one _ (by exact_mod_cast valid_getD s hs i.toNat hdn)]
              omega
          | true =>
            obtain ⟨hd0, hadv⟩ := index_true_spec s hs i h0 hdn
            rw [← hd] at hd0 hadv
            exact ⟨(size_eq_of_canon D hpp ic c d hd0 hne).2, hadv⟩
        obtain ⟨hsz, hle2⟩ := hsizes
        have hrec := refLoop_adv D u ic input s hin hs hpp fuel (pos + size c)
          (i + size d) (by have := size_pos d; omega) hle2
          (by have := size_pos d; omega) hfalse
        rw [hrec, hsz]
        omega
    · simp only [refLoop, if_neg hlt]
      omega

/-- A successful backward back-reference comparison retreats the position
by exactly the remaining length of the captured substring (counted from a
pair boundary, which every visited position is). -/
theorem refBackLoop_adv (D : UnicodeData) (u ic : Bool) (input s : JSString)
    (hin : ValidUnits input) (hs : ValidUnits s) (hpp : PlanePreserving D)
    (hsp : u = true → SurrogatesPaired s) :
    ∀ (fuel : Nat) (pos i : Int), 0 ≤ i → i ≤ (s.length : Int) →
      (u = true → NotMidPair s i) → i < (fuel : Int) →
      (refBackLoop D u ic input s fuel pos i).2 = false →
      (refBackLoop D u ic input s fuel pos i).1 = pos - i
  | 0, pos, i => by
    intro h0 hl hnm hf _
    exact absurd hf (by omega)
  | fuel + 1, pos, i => by
    intro h0 hl hnm hf hfalse
    by_cases hlt : 0 < i
    · simp only [refBackLoop, if_pos hlt] at hfalse ⊢
      set c := prevIndex input pos u with hc
      set d := prevIndex s i u with hd
      by_cases hne : (if ic then canonicalize D c u else c) ≠
          (if ic then canonicalize D d u else d)
      · rw [if_pos hne] at hfalse
        exact absurd hfalse (by simp)
      · rw [if_neg hne] at hfalse ⊢
        push_neg at hne
        have hdn : (i - 1).toNat < s.length := by omega
        have hsizes : size c = size d ∧ 0 ≤ i - size d ∧
            (u = true → NotMidPair s (i - size d)) := by
          cases u with
          | false =>
            have hdval : d = (s.getD (i - 1).toNat 0 : Int) := by
              rw [hd]
              show index s (i - 1) false = _
              exact index_false_eq s (i - 1) (by omega) hdn
            have hsd : size d = 1 := by
              rw [hdval]
              exact size_eq_one _ (by exact_mod_cast valid_getD s hs _ hdn)
            have hsc : size c = 1 := by
              rw [hc]
              show size (index input (pos - 1) false) = 1
              exact index_false_size input hin (pos - 1)
            exact ⟨by rw [hsc, hsd], by rw [hsd]; omega, fun hcon => absurd hcon (by simp)⟩
          | true =>
            obtain ⟨hd0, hge, hnm2⟩ := prevIndex_true_spec s hs (hsp rfl) i hlt hl (hnm rfl)
            rw [← hd] at hd0 hge hnm2
            exact ⟨(size_eq_of_canon D hpp ic c d hd0 hne).2, hge, fun _ => hnm2⟩
        obtain ⟨hsz, hge, hnm3⟩ := hsizes
        have hrec := refBackLoop_adv D u ic input s hin hs hpp hsp fuel (pos - size c)
          (i - size d) hge (by have := size_pos d; omega) hnm3
          (by have := size_pos d; omega) hfalse
        rw [hrec, hsz]
        omega
    · simp only [refBackLoop, if_neg hlt]
      omega

/-- C8: when capture i is unset (a -1 offset), ref i and ref_back i succeed
and leave pos unchanged; when it is set, the captured slice is compared by
the refLoop / refBackLoop canonicalized comparison (canonicalizing both
sides exactly when ignoreCase is set), and the thread backtracks on a
mismatch and otherwise advances (ref) or retreats (ref_back) pos by
exactly the slice's length.  The input has valid UTF-16 units, the case
data is plane-preserving, and for the backward direction in unicode mode
the captured slice has paired surrogates. -/
theorem C8_backref_semantics (E : ExecEnv) (P : Program) (input : JSString)
    (proc : Proc) (rest : List Proc) (i : Nat)
    (hin : ValidUnits input) (hpp : PlanePreserving E.D) :
    (getCode P proc.pc = some (.ref i) →
      ∀ s : JSString,
        jsSlice input (capGet proc.caps (i * 2)) (capGet proc.caps (i * 2 + 1)) = s →
      ((capGet proc.caps (i * 2) < 0 ∨ capGet proc.caps (i * 2 + 1) < 0 →
        step E P input proc rest = .cont ({ proc with pc := proc.pc + 1 } :: rest)) ∧
       (¬ (capGet proc.caps (i * 2) < 0 ∨ capGet proc.caps (i * 2 + 1) < 0) →
        (refLoop E.D P.flagSet.unicode P.flagSet.ignoreCase input s
            (s.length + 1) proc.pos 0).2 = true →
        step E P input proc rest = .cont rest) ∧
       (¬ (capGet proc.caps (i * 2) < 0 ∨ capGet proc.caps (i * 2 + 1) < 0) →
        (refLoop E.D P.flagSet.unicode P.flagSet.ignoreCase input s
            (s.length + 1) proc.pos 0).2 = false →
        step E P input proc rest =
          .cont ({ proc with
              pc := proc.pc + 1
              pos := proc.pos + (s.length : Int) } :: rest)))) ∧
    (getCode P proc.pc = some (.ref_back i) →
      ∀ s : JSString,
        jsSlice input (capGet proc.caps (i * 2)) (capGet proc.caps (i * 2 + 1)) = s →
        (P.flagSet.unicode = true → SurrogatesPaired s) →
      ((capGet proc.caps (i * 2) < 0 ∨ capGet proc.caps (i * 2 + 1) < 0 →
        step E P input proc rest = .cont ({ proc with pc := proc.pc + 1 } :: rest)) ∧
       (¬ (capGet proc.caps (i * 2) < 0 ∨ capGet proc.caps (i * 2 + 1) < 0) →
        (refBackLoop E.D P.flagSet.unicode P.flagSet.ignoreCase input s
            (s.length + 1) proc.pos (s.length : Int)).2 = true →
        step E P input proc rest = .cont rest) ∧
       (¬ (capGet proc.caps (i * 2) < 0 ∨ capGet proc.caps (i * 2 + 1) < 0) →
        (refBackLoop E.D P.flagSet.unicode P.flagSet.ignoreCase input s
            (s.length + 1) proc.pos (s.length : Int)).2 = false →
        step E P input proc rest =
          .cont ({ proc with
              pc := proc.pc + 1
              pos := proc.pos - (s.length : Int) } :: rest)))) := by
  constructor
  · intro hcode s hseq
    refine ⟨?_, ?_, ?_⟩
    · intro hun
      simp only [step, hcode]
      rw [if_pos hun]
      rfl
    · intro hset htrue
      simp only [step, hcode]
      rw [if_neg hset, hseq, if_pos htrue]
    · intro hset hfalse
      simp only [step, hcode]
      rw [if_neg hset, hseq, if_neg (by rw [hfalse]; simp)]
      have hvs : ValidUnits s := hseq ▸ valid_jsSlice input hin _ _
      have hadv := refLoop_adv E.D P.flagSet.unicode P.flagSet.ignoreCase input s
        hin hvs hpp (s.length + 1) proc.pos 0 le_rfl (by omega) (by omega) hfalse
      rw [hadv]
      have harith : proc.pos + ((s.length : Int) - 0) = proc.pos + (s.length : Int) := by
        omega
      rw [harith]
  · intro hcode s hseq hsp
    refine ⟨?_, ?_, ?_⟩
    · intro hun
      simp only [step, hcode]
      rw [if_pos hun]
      rfl
    · intro hset htrue
      simp only [step, hcode]
      rw [if_neg hset, hseq, if_pos htrue]
    · intro hset hfalse
      simp only [step, hcode]
      rw [if_neg hset, hseq, if_neg (by rw [hfalse]; simp)]
      have hvs : ValidUnits s := hseq ▸ valid_jsSlice input hin _ _
      have hadv := refBackLoop_adv E.D P.flagSet.unicode P.flagSet.ignoreCase input s
        hin hvs hpp hsp (s.length + 1) proc.pos (s.length : Int) (by omega) le_rfl
        (fun _ => fun hcon => absurd hcon (by omega)) (by omega) hfalse
      rw [hadv]

/-- Witness for C8: a set capture holding the slice a is matched forward by
ref 1 from position 1 of the input aa, advancing pos from 1 to 2. -/
theorem C8_backref_semantics_witness :
    step kelvinEnv ⟨emptyFlagSet, 1, [], [.ref 1]⟩ [0x61, 0x61]
      ⟨1, 0, [], 0, [0, 2, 0, 1]⟩ [] = .cont [⟨2, 1, [], 0, [0, 2, 0, 1]⟩] := by
  have h := (C8_backref_semantics kelvinEnv ⟨emptyFlagSet, 1, [], [.ref 1]⟩
    [0x61, 0x61] ⟨1, 0, [], 0, [0, 2, 0, 1]⟩ [] 1 (by decide)
    kelvinPlanePreserving).1 rfl [0x61] (by decide)
  rw [h.2.2 (by decide) (by decide)]
  decide

/-- One step of the flag loop: either the flag is already set and the loop
errors, or the recursion continues on the state with the flag turned on. -/
theorem flagsGoStep (rest : List JSString) (fs fs₁ : FlagSet) (c₀ : JSString)
    (msg : String) (hallow : c₀ ∈ allowedFlagChars)
    (hgo : preprocessFlagsGo (c₀ :: rest) fs =
      if flagOn fs c₀ = true then .error msg else preprocessFlagsGo rest fs₁)
    (hf : ∀ c : JSString, flagOn fs₁ c = true ↔ (c = c₀ ∨ flagOn fs c = true))
    (IH : GoSpec rest fs₁) : GoSpec (c₀ :: rest) fs := by
  constructor
  · by_cases hb : flagOn fs c₀ = true
    · apply iff_of_false
      · rintro ⟨fs', h⟩
        rw [hgo, if_pos hb] at h
        exact Except.noConfusion h
      · rintro ⟨-, -, hall⟩
        have hx := hall c₀ (List.mem_cons_self c₀ rest)
        simp [hb] at hx
    · have hb' : flagOn fs c₀ = false := by
        revert hb
        cases flagOn fs c₀ <;> simp
      constructor
      · rintro ⟨fs', h⟩
        rw [hgo, if_neg hb] at h
        obtain ⟨ha, hnd, hfl⟩ := IH.1.mp ⟨fs', h⟩
        refine ⟨?_, ?_, ?_⟩
        · intro c hcmem
          rcases List.mem_cons.mp hcmem with rfl | hm
          · exact hallow
          · exact ha c hm
        · rw [List.nodup_cons]
          refine ⟨?_, hnd⟩
          intro hmem
          have hx := hfl c₀ hmem
          have h2 := (hf c₀).mpr (Or.inl rfl)
          simp [h2] at hx
        · intro c hcmem
          rcases List.mem_cons.mp hcmem with rfl | hm
          · exact hb'
          · have hx := hfl c hm
            by_contra hcon
            have hc1 : flagOn fs c = true := by
              revert hcon
              cases flagOn fs c <;> simp
            have h2 := (hf c).mpr (Or.inr hc1)
            simp [h2] at hx
      · rintro ⟨ha, hnd, hfl⟩
        rw [hgo, if_neg hb]
        apply IH.1.mpr
        refine ⟨fun c hm => ha c (List.mem_cons_of_mem _ hm),
          (List.nodup_cons.mp hnd).2, ?_⟩
        intro c hm
        have h1 : ¬ c = c₀ := fun he => (List.nodup_cons.mp hnd).1 (he ▸ hm)
        have h2 : flagOn fs c = false := hfl c (List.mem_cons_of_mem _ hm)
        have h3 : ¬ flagOn fs₁ c = true := by
          rw [hf c]
          rintro (he | ht)
          · exact h1 he
          · simp [h2] at ht
        revert h3
        cases flagOn fs₁ c <;> simp
  · intro fs' hok c
    rw [hgo] at hok
    by_cases hb : flagOn fs c₀ = true
    · rw [if_pos hb] at hok
      exact Except.noConfusion hok
    · rw [if_neg hb] at hok
      rw [IH.2 fs' hok c, hf c]
      constructor
      · rintro ((he | ht) | hm)
        · exact Or.inr (by rw [he]; exact List.mem_cons_self c₀ rest)
        · exact Or.inl ht
        · exact Or.inr (List.mem_cons_of_mem _ hm)
      · rintro (ht | hm)
        · exact Or.inl (Or.inr ht)
        · rcases List.mem_cons.mp hm with rfl | hm2
          · exact Or.inl (Or.inl rfl)
          · exact Or.inr hm2

/-- The flag loop satisfies its specification at every argument pair. -/
theorem preprocessFlagsGoSpec (cs : List JSString) : ∀ fs : FlagSet, GoSpec cs fs := by
  induction cs with
  | nil =>
    intro fs
    constructor
    · constructor
      · intro _
        exact ⟨by simp, List.nodup_nil, by simp⟩
      · intro _
        exact ⟨fs, rfl⟩
    · intro fs' h c
      have h' : Except.ok fs = Except.ok (ε := String) fs' := h
      cases h'
      simp
  | cons c₀ rest IH =>
    intro fs
    by_cases hc : c₀ ∈ allowedFlagChars
    · have hc' := hc
      simp only [allowedFlagChars, List.mem_cons, List.not_mem_nil, or_false] at hc'
      rcases hc' with rfl | rfl | rfl | rfl | rfl | rfl
      · exact flagsGoStep rest fs { fs with global := true } _ "duplicated flag g" hc
          (by simp [preprocessFlagsGo, flagOn])
          (by intro c; by_cases h : c = [0x67] <;> simp [flagOn, h]) (IH _)
      · exact flagsGoStep rest fs { fs with ignoreCase := true } _ "duplicated flag i" hc
          (by simp [preprocessFlagsGo, flagOn])
          (by intro c; by_cases h : c = [0x69] <;> simp [flagOn, h]) (IH _)
      · exact flagsGoStep rest fs { fs with multiline := true } _ "duplicated flag m" hc
          (by simp [preprocessFlagsGo, flagOn])
          (by intro c; by_cases h : c = [0x6d] <;> simp [flagOn, h]) (IH _)
      · exact flagsGoStep rest fs { fs with dotAll := true } _ "duplicated flag s" hc
          (by simp [preprocessFlagsGo, flagOn])
          (by intro c; by_cases h : c = [0x73] <;> simp [flagOn, h]) (IH _)
      · exact flagsGoStep rest fs { fs with unicode := true } _ "duplicated flag u" hc
          (by simp [preprocessFlagsGo, flagOn])
          (by intro c; by_cases h : c = [0x75] <;> simp [flagOn, h]) (IH _)
      · exact flagsGoStep rest fs { fs with sticky := true } _ "duplicated flag s" hc
          (by simp [preprocessFlagsGo, flagOn])
          (by intro c; by_cases h : c = [0x79] <;> simp [flagOn, h]) (IH _)
    · have hc2 := hc
      simp only [allowedFlagChars, List.mem_cons, List.not_mem_nil, or_false,
        not_or] at hc2
      obtain ⟨h1, h2, h3, h4, h5, h6⟩ := hc2
      have herr : preprocessFlagsGo (c₀ :: rest) fs = .error "unknown flag" := by
        simp only [preprocessFlagsGo, if_neg h1, if_neg h2, if_neg h3, if_neg h4,
          if_neg h5, if_neg h6]
      constructor
      · apply iff_of_false
        · rintro ⟨fs', h⟩
          rw [herr] at h
          exact Except.noConfusion h
        · rintro ⟨ha, -, -⟩
          exact hc (ha c₀ (List.mem_cons_self c₀ rest))
      · intro fs' h
        rw [herr] at h
        exact Except.noConfusion h

/-- C9: flag preprocessing succeeds exactly when the flag string's code
points are drawn from g i m s u y with no repetitions, and then the
returned flag set switches on exactly the flags that occur; any other
character or any duplicate is an error. -/
theorem C9_flag_preprocessing (flags : JSString) :
    ((∃ fs, preprocessFlags flags = Except.ok fs) ↔
      (∀ c ∈ codePointStrs flags, c ∈ allowedFlagChars) ∧
        (codePointStrs flags).Nodup) ∧
    (∀ fs, preprocessFlags flags = Except.ok fs →
      ∀ c : JSString, flagOn fs c = true ↔ c ∈ codePointStrs flags) := by
  have hempty : ∀ c : JSString, flagOn emptyFlagSet c = false := by
    intro c
    unfold flagOn emptyFlagSet
    repeat' split
    all_goals rfl
  have h := preprocessFlagsGoSpec (codePointStrs flags) emptyFlagSet
  constructor
  · unfold preprocessFlags
    rw [h.1]
    simp [hempty]
  · intro fs hok c
    unfold preprocessFlags at hok
    rw [h.2 fs hok c, hempty c]
    simp

/-- Witness for C9: gi is accepted, gg is rejected. -/
theorem C9_flag_preprocessing_witness :
    (∃ fs, preprocessFlags [0x67, 0x69] = Except.ok fs) ∧
    ¬ ∃ fs, preprocessFlags [0x67, 0x67] = Except.ok fs := by
  constructor
  · exact (C9_flag_preprocessing [0x67, 0x69]).1.mpr (by decide)
  · intro hex
    have h := (C9_flag_preprocessing [0x67, 0x67]).1.mp hex
    revert h
    decide

/-! ## Helper lemmas for the char-set invariant (C5) -/

/-- getD of a take below the cut. -/
theorem getD_take_eq (l : List Nat) : ∀ (k m : Nat), m < k →
    (l.take k).getD m 0 = l.getD m 0 := by
  induction l with
  | nil => simp
  | cons x t IH =>
    intro k m h
    cases k with
    | zero => omega
    | succ k' =>
      cases m with
      | zero => simp
      | succ m' =>
        simp only [List.take_succ_cons, List.getD_cons_succ]
        exact IH k' m' (by omega)

/-- getD of a drop, shifted. -/
theorem getD_drop_eq (l : List Nat) : ∀ (k m : Nat),
    (l.drop k).getD m 0 = l.getD (k + m) 0 := by
  induction l with
  | nil => simp
  | cons x t IH =>
    intro k m
    cases k with
    | zero => simp
    | succ k' =>
      rw [List.drop_succ_cons, IH k' m, show k' + 1 + m = (k' + m) + 1 from by omega,
        List.getD_cons_succ]

/-- getLastD of a nonempty list is its last element. -/
theorem getLastD_eq_getD : ∀ (l : List Nat) (dflt : Nat), l ≠ [] →
    l.getLastD dflt = l.getD (l.length - 1) 0
  | [], _, h => absurd rfl h
  | [x], _, _ => rfl
  | x :: y :: t, dflt, _ => by
    rw [List.getLastD_cons dflt x (y :: t), getLastD_eq_getD (y :: t) x (by simp)]
    simp only [List.length_cons]
    rw [show t.length + 1 + 1 - 1 = (t.length + 1 - 1) + 1 from by omega,
      List.getD_cons_succ]

/-- An invariant flat array has begin strictly below end at every range. -/
theorem inv_begin_lt_end {d : List Nat} (h : CharSet.Invariant d) (k : Nat)
    (hk : k < d.length / 2) : CharSet.at' d (2 * k) < CharSet.at' d (2 * k + 1) :=
  h.2.1 k (List.mem_range.mpr hk)

/-- An invariant flat array has end strictly below the next begin. -/
theorem inv_end_lt_begin {d : List Nat} (h : CharSet.Invariant d) (k : Nat)
    (hk : k + 1 < d.length / 2) :
    CharSet.at' d (2 * k + 1) < CharSet.at' d (2 * k + 2) :=
  h.2.2 k (List.mem_range.mpr (by omega))

/-- The range ends of an invariant flat array are monotone. -/
theorem inv_ends_le {d : List Nat} (h : CharSet.Invariant d) :
    ∀ (k k' : Nat), k ≤ k' → k' < d.length / 2 →
    CharSet.at' d (2 * k + 1) ≤ CharSet.at' d (2 * k' + 1) := by
  intro k k' hle hlt
  induction k' with
  | zero =>
    have hz : k = 0 := by omega
    rw [hz]
  | succ m IH =>
    rcases Nat.eq_or_lt_of_le hle with rfl | hlt2
    · exact le_refl _
    · have hA := IH (by omega) (by omega)
      have hB := inv_end_lt_begin h m (by omega)
      have hC := inv_begin_lt_end h (m + 1) (by omega)
      have he : 2 * (m + 1) = 2 * m + 2 := by omega
      rw [he] at hC
      rw [show 2 * (m + 1) + 1 = 2 * m + 2 + 1 from by omega]
      omega

/-- The range begins of an invariant flat array are monotone. -/
theorem inv_begins_le {d : List Nat} (h : CharSet.Invariant d) :
    ∀ (k k' : Nat), k ≤ k' → k' < d.length / 2 →
    CharSet.at' d (2 * k) ≤ CharSet.at' d (2 * k') := by
  intro k k' hle hlt
  induction k' with
  | zero =>
    have hz : k = 0 := by omega
    rw [hz]
  | succ m IH =>
    rcases Nat.eq_or_lt_of_le hle with rfl | hlt2
    · exact le_refl _
    · have hA := IH (by omega) (by omega)
      have hB := inv_begin_lt_end h m (by omega)
      have hC := inv_end_lt_begin h m (by omega)
      have he : 2 * (m + 1) = 2 * m + 2 := by omega
      rw [he]
      omega

/-- The bisection loop of searchBegin: starting from a bracket whose low
end fails the predicate (or is -1) and whose high end satisfies it (or is
the range count), it returns the bracket's collapse point. -/
theorem sbLoop_spec (d : List Nat) (c : Nat) (n : Int) :
    ∀ (fuel : Nat) (lo hi : Int), lo < hi → hi - lo ≤ (fuel : Int) + 1 →
    (lo = -1 ∨ CharSet.at' d (lo * 2 + 1).toNat < c) →
    (hi = n ∨ c ≤ CharSet.at' d (hi * 2 + 1).toNat) →
    lo < CharSet.sbLoop d c fuel lo hi ∧ CharSet.sbLoop d c fuel lo hi ≤ hi ∧
    (CharSet.sbLoop d c fuel lo hi - 1 = -1 ∨
      CharSet.at' d ((CharSet.sbLoop d c fuel lo hi - 1) * 2 + 1).toNat < c) ∧
    (CharSet.sbLoop d c fuel lo hi = n ∨
      c ≤ CharSet.at' d ((CharSet.sbLoop d c fuel lo hi) * 2 + 1).toNat)
  | 0, lo, hi => by
    intro h1 h3 h4 h5
    simp only [CharSet.sbLoop]
    have hx : lo = hi - 1 := by omega
    rw [hx] at h4
    exact ⟨h1, le_refl _, h4, h5⟩
  | fuel + 1, lo, hi => by
    intro h1 h3 h4 h5
    simp only [CharSet.sbLoop]
    by_cases hgt : 1 < hi - lo
    · rw [if_pos hgt]
      by_cases hcle : c ≤ CharSet.at' d ((lo + (hi - lo) / 2) * 2 + 1).toNat
      · rw [if_pos hcle]
        have h := sbLoop_spec d c n fuel lo (lo + (hi - lo) / 2) (by omega) (by omega)
          h4 (Or.inr hcle)
        exact ⟨h.1, le_trans h.2.1 (by omega), h.2.2⟩
      · rw [if_neg hcle]
        have h := sbLoop_spec d c n fuel (lo + (hi - lo) / 2) hi (by omega) (by omega)
          (Or.inr (by omega)) h5
        exact ⟨lt_of_le_of_lt (by omega) h.1, h.2.1, h.2.2⟩
    · rw [if_neg hgt]
      have hx : lo = hi - 1 := by omega
      rw [hx] at h4
      exact ⟨h1, le_refl _, h4, h5⟩

/-- The bisection loop of searchEnd, symmetrically. -/
theorem seLoop_spec (d : List Nat) (c : Nat) (n : Int) :
    ∀ (fuel : Nat) (lo hi : Int), lo < hi → hi - lo ≤ (fuel : Int) + 1 →
    (lo = -1 ∨ CharSet.at' d (lo * 2).toNat ≤ c) →
    (hi = n ∨ c < CharSet.at' d (hi * 2).toNat) →
    lo ≤ CharSet.seLoop d c fuel lo hi ∧ CharSet.seLoop d c fuel lo hi < hi ∧
    (CharSet.seLoop d c fuel lo hi = -1 ∨
      CharSet.at' d ((CharSet.seLoop d c fuel lo hi) * 2).toNat ≤ c) ∧
    (CharSet.seLoop d c fuel lo hi + 1 = n ∨
      c < CharSet.at' d ((CharSet.seLoop d c fuel lo hi + 1) * 2).toNat)
  | 0, lo, hi => by
    intro h1 h3 h4 h5
    simp only [CharSet.seLoop]
    have hx : hi = lo + 1 := by omega
    rw [hx] at h5
    exact ⟨le_refl _, by omega, h4, h5⟩
  | fuel + 1, lo, hi => by
    intro h1 h3 h4 h5
    simp only [CharSet.seLoop]
    by_cases hgt : 1 < hi - lo
    · rw [if_pos hgt]
      by_cases hcle : CharSet.at' d ((lo + (hi - lo) / 2) * 2).toNat ≤ c
      · rw [if_pos hcle]
        have h := seLoop_spec d c n fuel (lo + (hi - lo) / 2) hi (by omega) (by omega)
          (Or.inr hcle) h5
        exact ⟨le_trans (by omega) h.1, h.2.1, h.2.2⟩
      · rw [if_neg hcle]
        have h := seLoop_spec d c n fuel lo (lo + (hi - lo) / 2) (by omega) (by omega)
          h4 (Or.inr (by omega))
        exact ⟨h.1, lt_of_lt_of_le h.2.1 (by omega), h.2.2⟩
    · rw [if_neg hgt]
      have hx : hi = lo + 1 := by omega
      rw [hx] at h5
      exact ⟨le_refl _, by omega, h4, h5⟩

/-- searchBegin on an invariant set: its result separates the ranges whose
end is below c from those whose end is at least c. -/
theorem searchBegin_facts (s : CharSet) (hinv : CharSet.Invariant s.data) (c : Nat) :
    0 ≤ CharSet.searchBegin s c ∧
    CharSet.searchBegin s c ≤ (s.data.length : Int) / 2 ∧
    (∀ k : Nat, k < s.data.length / 2 → (k : Int) < CharSet.searchBegin s c →
      CharSet.at' s.data (2 * k + 1) < c) ∧
    (∀ k : Nat, k < s.data.length / 2 → CharSet.searchBegin s c ≤ (k : Int) →
      c ≤ CharSet.at' s.data (2 * k + 1)) := by
  have h := sbLoop_spec s.data c ((s.data.length : Int) / 2) (s.data.length + 1) (-1)
    ((s.data.length : Int) / 2) (by omega) (by push_cast; omega) (Or.inl rfl) (Or.inl rfl)
  unfold CharSet.searchBegin
  obtain ⟨hr0, hrn, hlow, hhigh⟩ := h
  refine ⟨by omega, hrn, ?_, ?_⟩
  · intro k hk hkr
    rcases hlow with h' | h'
    · omega
    · have hidx : ((CharSet.sbLoop s.data c (s.data.length + 1) (-1)
          ((s.data.length : Int) / 2) - 1) * 2 + 1).toNat =
          2 * (CharSet.sbLoop s.data c (s.data.length + 1) (-1)
          ((s.data.length : Int) / 2) - 1).toNat + 1 := by omega
      rw [hidx] at h'
      have hmono := inv_ends_le hinv k (CharSet.sbLoop s.data c (s.data.length + 1) (-1)
        ((s.data.length : Int) / 2) - 1).toNat (by omega) (by omega)
      omega
  · intro k hk hrk
    rcases hhigh with h' | h'
    · omega
    · have hidx : ((CharSet.sbLoop s.data c (s.data.length + 1) (-1)
          ((s.data.length : Int) / 2)) * 2 + 1).toNat =
          2 * (CharSet.sbLoop s.data c (s.data.length + 1) (-1)
          ((s.data.length : Int) / 2)).toNat + 1 := by omega
      rw [hidx] at h'
      have hmono := inv_ends_le hinv (CharSet.sbLoop s.data c (s.data.length + 1) (-1)
        ((s.data.length : Int) / 2)).toNat k (by omega) hk
      omega

/-- searchEnd on an invariant set: its result separates the ranges whose
begin is at most c from those whose begin is above c. -/
theorem searchEnd_facts (s : CharSet) (hinv : CharSet.Invariant s.data) (c : Nat) :
    -1 ≤ CharSet.searchEnd s c ∧
    CharSet.searchEnd s c < (s.data.length : Int) / 2 ∧
    (∀ k : Nat, k < s.data.length / 2 → (k : Int) ≤ CharSet.searchEnd s c →
      CharSet.at' s.data (2 * k) ≤ c) ∧
    (∀ k : Nat, k < s.data.length / 2 → CharSet.searchEnd s c < (k : Int) →
      c < CharSet.at' s.data (2 * k)) := by
  have h := seLoop_spec s.data c ((s.data.length : Int) / 2) (s.data.length + 1) (-1)
    ((s.data.length : Int) / 2) (by omega) (by push_cast; omega) (Or.inl rfl) (Or.inl rfl)
  unfold CharSet.searchEnd
  obtain ⟨hr0, hrn, hlow, hhigh⟩ := h
  refine ⟨hr0, hrn, ?_, ?_⟩
  · intro k hk hkr
    rcases hlow with h' | h'
    · omega
    · have hidx : ((CharSet.seLoop s.data c (s.data.length + 1) (-1)
          ((s.data.length : Int) / 2)) * 2).toNat =
          2 * (CharSet.seLoop s.data c (s.data.length + 1) (-1)
          ((s.data.length : Int) / 2)).toNat := by omega
      rw [hidx] at h'
      have hmono := inv_begins_le hinv k (CharSet.seLoop s.data c (s.data.length + 1) (-1)
        ((s.data.length : Int) / 2)).toNat (by omega) (by omega)
      omega
  · intro k hk hrk
    rcases hhigh with h' | h'
    · omega
    · have hidx : ((CharSet.seLoop s.data c (s.data.length + 1) (-1)
          ((s.data.length : Int) / 2) + 1) * 2).toNat =
          2 * (CharSet.seLoop s.data c (s.data.length + 1) (-1)
          ((s.data.length : Int) / 2) + 1).toNat := by omega
      rw [hidx] at h'
      have hmono := inv_begins_le hinv (CharSet.seLoop s.data c (s.data.length + 1) (-1)
        ((s.data.length : Int) / 2) + 1).toNat k (by omega) hk
      omega

/-- Splicing P ranges out at position i and inserting one range whose ends
clear the neighboring ranges preserves the invariant. -/
theorem splice_invariant (d : List Nat) (hinv : CharSet.Invariant d) (i P b' e' : Nat)
    (hiP : i + P ≤ d.length / 2)
    (hbe : b' < e')
    (hpre : 1 ≤ i → CharSet.at' d (2 * (i - 1) + 1) < b')
    (hsuf : i + P < d.length / 2 → e' < CharSet.at' d (2 * (i + P))) :
    CharSet.Invariant (d.take (i * 2) ++ [b', e'] ++ d.drop (i * 2 + 2 * P)) := by
  obtain ⟨h1, h2, h3⟩ := hinv
  have h2n : d.length = 2 * (d.length / 2) := by omega
  have hlt : (d.take (i * 2)).length = 2 * i := by
    rw [List.length_take]
    omega
  have hlN : (d.take (i * 2) ++ [b', e'] ++ d.drop (i * 2 + 2 * P)).length =
      2 * (d.length / 2 + 1 - P) := by
    simp only [List.length_append, List.length_cons, List.length_nil, List.length_drop,
      hlt]
    omega
  have hpre' : ∀ m, m < 2 * i →
      CharSet.at' (d.take (i * 2) ++ [b', e'] ++ d.drop (i * 2 + 2 * P)) m =
        CharSet.at' d m := by
    intro m hm
    unfold CharSet.at'
    rw [List.getD_append _ _ _ _ (by
        simp only [List.length_append, List.length_cons, List.length_nil, hlt]
        omega),
      List.getD_append _ _ _ _ (by rw [hlt]; omega)]
    exact getD_take_eq d (i * 2) m (by omega)
  have hat_b : CharSet.at' (d.take (i * 2) ++ [b', e'] ++ d.drop (i * 2 + 2 * P))
      (2 * i) = b' := by
    unfold CharSet.at'
    rw [List.getD_append _ _ _ _ (by
        simp only [List.length_append, List.length_cons, List.length_nil, hlt]
        omega),
      List.getD_append_right _ _ _ _ (by rw [hlt]),
      hlt, Nat.sub_self]
    rfl
  have hat_e : CharSet.at' (d.take (i * 2) ++ [b', e'] ++ d.drop (i * 2 + 2 * P))
      (2 * i + 1) = e' := by
    unfold CharSet.at'
    rw [List.getD_append _ _ _ _ (by
        simp only [List.length_append, List.length_cons, List.length_nil, hlt]
        omega),
      List.getD_append_right _ _ _ _ (by rw [hlt]; omega),
      hlt, show 2 * i + 1 - 2 * i = 1 from by omega]
    rfl
  have hsuf' : ∀ m, CharSet.at' (d.take (i * 2) ++ [b', e'] ++ d.drop (i * 2 + 2 * P))
      (2 * i + 2 + m) = CharSet.at' d (i * 2 + 2 * P + m) := by
    intro m
    unfold CharSet.at'
    rw [List.getD_append_right _ _ _ _ (by
        simp only [List.length_append, List.length_cons, List.length_nil, hlt]
        omega)]
    rw [show 2 * i + 2 + m - (d.take (i * 2) ++ [b', e']).length = m from by
      simp only [List.length_append, List.length_cons, List.length_nil, hlt]
      omega]
    exact getD_drop_eq d (i * 2 + 2 * P) m
  refine ⟨?_, ?_, ?_⟩
  · rw [hlN]
    omega
  · intro k hk
    have hkn : k < d.length / 2 + 1 - P := by
      rw [List.mem_range, hlN] at hk
      omega
    rcases Nat.lt_trichotomy k i with hki | rfl | hki
    · rw [hpre' _ (by omega), hpre' _ (by omega)]
      exact h2 k (List.mem_range.mpr (by omega))
    · rw [hat_b, hat_e]
      exact hbe
    · rw [show 2 * k + 1 = 2 * i + 2 + (2 * (k - i - 1) + 1) from by omega, hsuf',
        show 2 * k = 2 * i + 2 + 2 * (k - i - 1) from by omega, hsuf',
        show i * 2 + 2 * P + 2 * (k - i - 1) = 2 * (k + P - 1) from by omega,
        show i * 2 + 2 * P + (2 * (k - i - 1) + 1) = 2 * (k + P - 1) + 1 from by omega]
      exact h2 (k + P - 1) (List.mem_range.mpr (by omega))
  · intro k hk
    have hkn : k < d.length / 2 - P := by
      rw [List.mem_range, hlN] at hk
      omega
    rcases Nat.lt_trichotomy (k + 1) i with hki | hki | hki
    · rw [hpre' _ (by omega), hpre' _ (by omega)]
      exact h3 k (List.mem_range.mpr (by omega))
    · rw [hpre' _ (by omega), show 2 * k + 2 = 2 * i from by omega, hat_b,
        show 2 * k + 1 = 2 * (i - 1) + 1 from by omega]
      exact hpre (by omega)
    · by_cases hik : k = i
      · rw [show 2 * k + 1 = 2 * i + 1 from by omega, hat_e,
          show 2 * k + 2 = 2 * i + 2 + 0 from by omega, hsuf',
          show i * 2 + 2 * P + 0 = 2 * (i + P) from by omega]
        exact hsuf (by omega)
      · have hki2 : i < k := by omega
        rw [show 2 * k + 1 = 2 * i + 2 + (2 * (k - i - 1) + 1) from by omega, hsuf',
          show 2 * k + 2 = 2 * i + 2 + 2 * (k - i) from by omega, hsuf',
          show i * 2 + 2 * P + (2 * (k - i - 1) + 1) = 2 * (k + P - 1) + 1 from by omega,
          show i * 2 + 2 * P + 2 * (k - i) = 2 * (k + P - 1) + 2 from by omega]
        exact h3 (k + P - 1) (List.mem_range.mpr (by omega))

/-- CharSet.add preserves the invariant. -/
theorem add_invariant (s : CharSet) (hinv : CharSet.Invariant s.data) (b e : Nat)
    (hbe : b < e) : CharSet.Invariant (CharSet.add s b e).data := by
  obtain ⟨hsb0, hsbn, hsbL, hsbH⟩ := searchBegin_facts s hinv b
  obtain ⟨hse0, hsen, hseL, hseH⟩ := searchEnd_facts s hinv e
  have hlen : s.data.length % 2 = 0 := hinv.1
  set sb := CharSet.searchBegin s b with hsbdef
  set se := CharSet.searchEnd s e with hsedef
  set i := sb.toNat with hidef
  have hij : (i : Int) ≤ se + 1 := by
    by_contra hcon
    push_neg at hcon
    have hkn : (se + 1).toNat < s.data.length / 2 := by omega
    have hA := hsbL (se + 1).toNat hkn (by omega)
    have hB := hseH (se + 1).toNat hkn (by omega)
    have hC := inv_begin_lt_end hinv (se + 1).toNat hkn
    omega
  set P := (se + 1 - (i : Int)).toNat with hPdef
  have hdel : ((se - (i : Int) + 1) * 2).toNat = 2 * P := by omega
  have hiPn : i + P ≤ s.data.length / 2 := by omega
  have hdata : (CharSet.add s b e).data =
      s.data.take (i * 2) ++
        [if (s.data.drop (i * 2)).take (2 * P) = [] then b
         else min b (((s.data.drop (i * 2)).take (2 * P)).headD 0),
         if (s.data.drop (i * 2)).take (2 * P) = [] then e
         else max e (((s.data.drop (i * 2)).take (2 * P)).getLastD 0)] ++
        s.data.drop (i * 2 + 2 * P) := by
    simp only [CharSet.add]
    rw [← hsbdef, ← hsedef, ← hidef, hdel]
  rw [hdata]
  by_cases hP0 : P = 0
  · rw [hP0]
    simp only [Nat.mul_zero, List.take_zero, if_true]
    have hsp := splice_invariant s.data hinv i 0 b e (by omega) hbe
      (by
        intro h1i
        have hA := hsbL (i - 1) (by omega) (by omega)
        exact hA)
      (by
        intro hisn
        have hA := hseH (i + 0) (by simpa using hisn) (by omega)
        simpa using hA)
    simpa using hsp
  · have hPpos : 0 < P := Nat.pos_of_ne_zero hP0
    have hlen2 : ((s.data.drop (i * 2)).take (2 * P)).length = 2 * P := by
      rw [List.length_take, List.length_drop]
      omega
    have hrne : (s.data.drop (i * 2)).take (2 * P) ≠ [] := by
      intro hcon
      rw [hcon] at hlen2
      simp at hlen2
      omega
    rw [if_neg hrne, if_neg hrne]
    have hhead : ((s.data.drop (i * 2)).take (2 * P)).headD 0 =
        CharSet.at' s.data (2 * i) := by
      cases hx : (s.data.drop (i * 2)).take (2 * P) with
      | nil => exact absurd hx hrne
      | cons y t =>
        have hy : ((s.data.drop (i * 2)).take (2 * P)).getD 0 0 = y := by
          rw [hx]
          rfl
        rw [getD_take_eq _ _ _ (by omega), getD_drop_eq] at hy
        show y = CharSet.at' s.data (2 * i)
        unfold CharSet.at'
        rw [show 2 * i = i * 2 + 0 from by omega]
        exact hy.symm
    have hlast : ((s.data.drop (i * 2)).take (2 * P)).getLastD 0 =
        CharSet.at' s.data (2 * (i + P) - 1) := by
      rw [getLastD_eq_getD _ 0 hrne, hlen2, getD_take_eq _ _ _ (by omega), getD_drop_eq]
      unfold CharSet.at'
      rw [show i * 2 + (2 * P - 1) = 2 * (i + P) - 1 from by omega]
    rw [hhead, hlast]
    exact splice_invariant s.data hinv i P
      (min b (CharSet.at' s.data (2 * i)))
      (max e (CharSet.at' s.data (2 * (i + P) - 1)))
      hiPn
      (by
        have h1 : min b (CharSet.at' s.data (2 * i)) ≤ b := Nat.min_le_left _ _
        have h2 : e ≤ max e (CharSet.at' s.data (2 * (i + P) - 1)) := Nat.le_max_left _ _
        omega)
      (by
        intro h1i
        have hA := hsbL (i - 1) (by omega) (by omega)
        have hB := inv_end_lt_begin hinv (i - 1) (by omega)
        rw [show 2 * (i - 1) + 2 = 2 * i from by omega] at hB
        exact Nat.lt_min.mpr ⟨hA, hB⟩)
      (by
        intro hiPn2
        have hA := hseH (i + P) hiPn2 (by omega)
        have hB := inv_end_lt_begin hinv (i + P - 1) (by omega)
        rw [show 2 * (i + P - 1) + 1 = 2 * (i + P) - 1 from by omega,
          show 2 * (i + P - 1) + 2 = 2 * (i + P) from by omega] at hB
        exact Nat.max_lt.mpr ⟨hA, hB⟩)

/-- Dropping the first range of an invariant flat array keeps it invariant. -/
theorem invariant_tail2 (b e : Nat) (rest : List Nat)
    (h : CharSet.Invariant (b :: e :: rest)) : CharSet.Invariant rest := by
  obtain ⟨h1, h2, h3⟩ := h
  refine ⟨?_, ?_, ?_⟩
  · simp only [List.length_cons] at h1
    omega
  · intro k hk
    rw [List.mem_range] at hk
    have hx := h2 (k + 1) (by
      rw [List.mem_range]
      simp only [List.length_cons]
      omega)
    unfold CharSet.at' at hx ⊢
    rw [show 2 * (k + 1) = (2 * k + 1) + 1 from by omega,
      show (2 * k + 1) + 1 + 1 = ((2 * k + 1) + 1) + 1 from by omega] at hx
    simpa [List.getD_cons_succ] using hx
  · intro k hk
    rw [List.mem_range] at hk
    have hx := h3 (k + 1) (by
      rw [List.mem_range]
      simp only [List.length_cons]
      omega)
    unfold CharSet.at' at hx ⊢
    rw [show 2 * (k + 1) + 1 = ((2 * k + 1) + 1) + 1 from by omega,
      show 2 * (k + 1) + 2 = ((2 * k + 2) + 1) + 1 from by omega] at hx
    simpa [List.getD_cons_succ] using hx

/-- An invariant flat array is a list of increasing pairs. -/
theorem invariant_pairsLt : ∀ (d : List Nat), CharSet.Invariant d → PairsLt d
  | [], _ => trivial
  | [_], h => by
    exfalso
    have := h.1
    simp at this
  | b :: e :: rest, h => by
    constructor
    · have hx := h.2.1 0 (List.mem_range.mpr (by
        have := h.1
        simp only [List.length_cons] at this ⊢
        omega))
      simpa [CharSet.at'] using hx
    · exact invariant_pairsLt rest (invariant_tail2 b e rest h)

/-- The loop of addCharSet preserves the invariant when fed increasing
pairs. -/
theorem addCharSet_go_invariant : ∀ (l : List Nat) (s : CharSet),
    CharSet.Invariant s.data → PairsLt l →
    CharSet.Invariant (CharSet.addCharSet.go s l).data
  | [], _, hs, _ => hs
  | [_], _, hs, _ => hs
  | _ :: _ :: rest, s, hs, hp =>
    addCharSet_go_invariant rest (s.add _ _) (add_invariant s hs _ _ hp.1) hp.2

/-- CharSet.addCharSet preserves the invariant. -/
theorem addCharSet_invariant (s t : CharSet) (hs : CharSet.Invariant s.data)
    (ht : CharSet.Invariant t.data) : CharSet.Invariant (s.addCharSet t).data :=
  addCharSet_go_invariant t.data s hs (invariant_pairsLt t.data ht)

/-- C5 (counterexample): the claim includes invert among the operations,
but invert after add(0, 10) produces the flat array [0, 0, 10, 0x110000],
whose first range (0, 0) is empty: the result of a GoodOp sequence with an
invert violates the claimed invariant. -/
theorem C5_charset_invariant_counterexample :
    GoodOp (CharSetOp.add 0 10) ∧ GoodOp CharSetOp.inv ∧
    (applyOps ⟨[]⟩ [CharSetOp.add 0 10, CharSetOp.inv]).data =
      [0, 0, 10, 0x110000] ∧
    ¬ CharSet.Invariant (applyOps ⟨[]⟩ [CharSetOp.add 0 10, CharSetOp.inv]).data := by
  refine ⟨by decide, trivial, rfl, by decide⟩

/-- C5 (amended): after any sequence of add and addCharSet operations
(each added range satisfying begin < end, each added set well formed) on a
well-formed CharSet, the flat range array is sorted, disjoint and
maximally coalesced: every range has begin strictly below end and every
end strictly below the following begin.  The original claim also allowed
invert, which can create an empty first or last range. -/
theorem C5_charset_invariant (s : CharSet) (hs : CharSet.Invariant s.data)
    (ops : List CharSetOp) (hgood : ∀ op ∈ ops, GoodOp op)
    (hnoinv : ∀ op ∈ ops, op ≠ CharSetOp.inv) :
    CharSet.Invariant (applyOps s ops).data := by
  induction ops generalizing s with
  | nil => exact hs
  | cons op rest IH =>
    have hop := hgood op (List.mem_cons_self _ _)
    have h1 : CharSet.Invariant (applyOp s op).data := by
      cases op with
      | add b e => exact add_invariant s hs b e hop.1
      | addSet t => exact addCharSet_invariant s t hs hop
      | inv => exact absurd rfl (hnoinv _ (List.mem_cons_self _ _))
    exact IH (applyOp s op) h1 (fun o ho => hgood o (List.mem_cons_of_mem _ ho))
      (fun o ho => hnoinv o (List.mem_cons_of_mem _ ho))

/-- Witness for C5 (amended) at a concrete op sequence: digits, then the
uppercase range, then the lowercase range as a set. -/
theorem C5_charset_invariant_witness :
    CharSet.Invariant (applyOps ⟨[0x30, 0x3a]⟩
      [CharSetOp.add 0x41 0x5b, CharSetOp.addSet ⟨[0x61, 0x7b]⟩]).data :=
  C5_charset_invariant ⟨[0x30, 0x3a]⟩ (by decide)
    [CharSetOp.add 0x41 0x5b, CharSetOp.addSet ⟨[0x61, 0x7b]⟩]
    (by decide) (by decide)

end Rerejs
